import Mathlib

/-!
Verification of the MinPol data pipeline (TXT→DZN converter, MiniZinc output
reader, and solution checker) against its specification.

The development is a shallow embedding of the three Python components:

* `verificar_solucion` (utilities/checker.py): the solution checker, embedded
  as a computation in `Except ChkErr` where `ChkErr.shape` models Python
  `IndexError` on list/array indexing and `ChkErr.zeroDiv` models
  `ZeroDivisionError`.  Python floats are modelled by `ℚ` (the checker only
  performs exact decimal arithmetic on the values under study).
* `parse_minizinc_output` (utilities/parser.py): the solver-stdout reader,
  embedded over `List Char` with hand-rolled deterministic equivalents of the
  specific regular expressions the code uses.
* `convert_txt_to_dzn` (convertir_individual.py) and `parse_dzn_input`
  (utilities/parser.py): the TXT→DZN converter and the DZN reader, embedded
  over `List Char`.
-/

namespace MinPol

/-- Errors of the checker embedding: `shape` models a Python `IndexError`
(out-of-range list/array access), `zeroDiv` a `ZeroDivisionError`. -/
inductive ChkErr where
  | shape : ChkErr
  | zeroDiv : ChkErr
  deriving DecidableEq, Repr

/-- A move matrix (list of rows of integers). -/
abbrev Mat := List (List Int)

/-- Python list/array indexing with a non-negative index: out of range raises
`IndexError`, modelled as `ChkErr.shape`. -/
def pyIdx {α : Type} (l : List α) (i : Nat) : Except ChkErr α :=
  match l.get? i with
  | some a => Except.ok a
  | none => Except.error ChkErr.shape

/-- Sum of a list of integers (`numpy.sum` over a row / Python `sum`). -/
def sumList (l : List Int) : Int := l.foldl (· + ·) 0

/-- Sum of a list of rationals (accumulation of Python floats, modelled
exactly). -/
def sumRat (l : List Rat) : Rat := l.foldl (· + ·) 0

/-- The fixed per-tier cost multipliers `resistencia = [1.0, 1.5, 2.0]` of
checker.py line 36. -/
def resistencia : List Rat := [1, 3/2, 2]

/-- The structured content of the verification report produced by
`verificar_solucion`: one pass/fail flag per constraint section, the
recomputed distribution, cost, movement count, weighted median and
polarization, the final verdict, and the list of nonzero moves. -/
structure Reporte where
  c1 : Bool
  c2 : Bool
  c3 : Bool
  c4 : Bool
  c5 : Bool
  qFinal : List Int
  costoTotal : Rat
  movimientosTotales : Int
  mediana : Rat
  polarizacion : Rat
  valido : Bool
  detalle : List (Nat × Nat × Nat × Int)
  deriving DecidableEq, Repr

/-- Constraint 1 loop of checker.py (lines 42-50): for every tier `k < 3` and
opinion `i < m`, compare the full row sum `x_arrays[k][i].sum()` against the
available count `s_array[i][k]`. -/
def chkConserv (x : List Mat) (s : Mat) (m : Nat) :
    Except ChkErr (List (List Bool)) :=
  (List.range 3).mapM (fun k => (List.range m).mapM (fun i => do
    let row ← pyIdx (x.getD k []) i
    let srow ← pyIdx s i
    let disp ← pyIdx srow k
    pure (decide (sumList row > disp))))

/-- Constraint 2 loop of checker.py (lines 59-64): diagonal entries
`x_arrays[k][i][i]`. -/
def chkAuto (x : List Mat) (m : Nat) : Except ChkErr (List (List Bool)) :=
  (List.range 3).mapM (fun k => (List.range m).mapM (fun i => do
    let row ← pyIdx (x.getD k []) i
    let d ← pyIdx row i
    pure (decide (d > 0))))

/-- Recomputation of the final distribution, checker.py lines 74-79:
`q_i = p[i] - (row sums of i over the tiers) + (column sums of i)`. -/
def distFinal (x : List Mat) (p : List Int) (m : Nat) :
    Except ChkErr (List Int) :=
  (List.range m).mapM (fun i => do
    let sal ← (List.range 3).mapM (fun k => do
      let row ← pyIdx (x.getD k []) i
      pure (sumList row))
    let lleg ← (List.range 3).mapM (fun k => do
      let col ← (x.getD k []).mapM (fun row => pyIdx row i)
      pure (sumList col))
    let pi ← pyIdx p i
    pure (pi - sumList sal + sumList lleg))

/-- Cost terms of checker.py lines 95-101: `x[k][i][j] * |i-j| * resistencia[k]`
for `i ≠ j` and positive entries; the entry access only happens when `i ≠ j`
(Python `and` short-circuits). -/
def costoTermsM (x : List Mat) (m : Nat) :
    Except ChkErr (List (List (List Rat))) :=
  (List.range 3).mapM (fun k => (List.range m).mapM (fun i =>
    (List.range m).mapM (fun j => do
      if i = j then pure (0 : Rat) else do
        let row ← pyIdx (x.getD k []) i
        let xv ← pyIdx row j
        pure (if xv > 0 then
          (xv : Rat) * ((|(i : Int) - (j : Int)| : Int) : Rat) * resistencia.getD k 0
        else 0))))

/-- Movement terms of checker.py lines 116-121: `x[k][i][j] * |i-j|` for every
`i ≠ j` (no positivity guard). -/
def movTermsM (x : List Mat) (m : Nat) :
    Except ChkErr (List (List (List Int))) :=
  (List.range 3).mapM (fun k => (List.range m).mapM (fun i =>
    (List.range m).mapM (fun j => do
      if i = j then pure (0 : Int) else do
        let row ← pyIdx (x.getD k []) i
        let xv ← pyIdx row j
        pure (xv * |(i : Int) - (j : Int)|))))

/-- The weighted-median loop of checker.py lines 139-146: walk the final
distribution accumulating counts; at the first index whose running total
reaches `pos`, read `v[i]` (a list access that can raise) and stop.  Returns
`none` when no index reaches `pos` (the code then keeps `v[0]`). -/
def medGo (v : List Rat) (pos : Int) : List Int → Int → Nat → Except ChkErr (Option Rat)
  | [], _, _ => Except.ok none
  | q :: rest, acum, i =>
    if acum + q ≥ pos then (pyIdx v i).map Option.some
    else medGo v pos rest (acum + q) (i + 1)

/-- Polarization terms of checker.py line 151:
`q_final[i] * abs(v_array[i] - mediana)` for `i < m`. -/
def polTermsM (q : List Int) (v : List Rat) (m : Nat) (med : Rat) :
    Except ChkErr (List Rat) :=
  (List.range m).mapM (fun i => do
    let qi ← pyIdx q i
    let vi ← pyIdx v i
    pure ((qi : Rat) * |vi - med|))

/-- Nonzero-move listing of checker.py lines 171-184: every `x[k][i][j]` is
read; positive entries are collected with their tier and endpoints. -/
def detalleM (x : List Mat) (m : Nat) :
    Except ChkErr (List (List (List (Option (Nat × Nat × Nat × Int))))) :=
  (List.range 3).mapM (fun k => (List.range m).mapM (fun i =>
    (List.range m).mapM (fun j => do
      let row ← pyIdx (x.getD k []) i
      let xv ← pyIdx row j
      pure (if xv > 0 then some (k, i, j, xv) else none))))

/-- Embedding of `verificar_solucion` (checker.py lines 4-186).

Notes on the modelling of Python-level behaviour:
* `x_arrays = [np.array(x[k]) for k in range(3)]` raises `IndexError` when
  `x` has fewer than 3 matrices; afterwards `x_arrays[k]` has the same
  entries as `x[k]`, so the loops read `x.getD k []` directly.
* In the success branch of constraint 4 the code evaluates
  `costo_total/ct_max`.  `costo_total` stays the built-in float `0.0` exactly
  when no accumulation happened (every accumulated term is positive), and
  Python raises `ZeroDivisionError` for built-in-float division by zero,
  while a numpy float divided by zero yields `inf`/`nan` without raising.
  Hence the branch raises exactly when `ct_max = 0 ∧ costo_total = 0`.
* Likewise in the success branch of constraint 5, `movimientos_totales`
  stays the built-in int `0` exactly when the `i ≠ j` accumulation never ran,
  i.e. when `m ≤ 1`; the branch raises exactly when `maxMovs = 0 ∧ m ≤ 1`. -/
def verificar_solucion (x : List Mat) (p : List Int) (s : Mat) (v : List Rat)
    (n : Int) (m : Nat) (ct_max maxMovs : Rat) : Except ChkErr Reporte := do
  let _x0 ← pyIdx x 0
  let _x1 ← pyIdx x 1
  let _x2 ← pyIdx x 2
  let r1 ← chkConserv x s m
  let viol1 : Bool := r1.flatten.any id
  let r2 ← chkAuto x m
  let viol2 : Bool := r2.flatten.any id
  let q_final ← distFinal x p m
  let pass3 : Bool := decide (sumList q_final = n)
  let costoTerms ← costoTermsM x m
  let costo_total : Rat := sumRat costoTerms.flatten.flatten
  let pass4 : Bool := decide (¬ costo_total > ct_max + 1/100)
  if pass4 ∧ ct_max = 0 ∧ costo_total = 0 then throw ChkErr.zeroDiv
  let movTerms ← movTermsM x m
  let movimientos : Int := sumList movTerms.flatten.flatten
  let pass5 : Bool := decide (¬ (movimientos : Rat) > maxMovs + 1/100)
  if pass5 ∧ maxMovs = 0 ∧ m ≤ 1 then throw ChkErr.zeroDiv
  let v0 ← pyIdx v 0
  let pos : Int := Int.fdiv (n + 1) 2
  let medOpt ← medGo v pos q_final 0 0
  let mediana : Rat := medOpt.getD v0
  let polTerms ← polTermsM q_final v m mediana
  let polarizacion : Rat := sumRat polTerms
  let det ← detalleM x m
  pure { c1 := !viol1, c2 := !viol2, c3 := pass3, c4 := pass4, c5 := pass5,
         qFinal := q_final, costoTotal := costo_total,
         movimientosTotales := movimientos, mediana := mediana,
         polarizacion := polarizacion,
         valido := !viol1 && !viol2 && pass3 && pass4 && pass5,
         detalle := det.flatten.flatten.filterMap id }

/-! ### Pure evaluators for the checker under well-shaped inputs -/

/-- Row sum `x_arrays[k][i].sum()` as a total function. -/
def filaSuma (mk : Mat) (i : Nat) : Int := sumList (mk.getD i [])

/-- Column sum `x_arrays[k][:, i].sum()` as a total function. -/
def colSuma (mk : Mat) (i : Nat) : Int := sumList (mk.map (fun row => row.getD i 0))

/-- Total outflow from opinion `i` over the three tiers. -/
def salidasDe (x : List Mat) (i : Nat) : Int :=
  sumList ((List.range 3).map (fun k => filaSuma (x.getD k []) i))

/-- Total inflow into opinion `i` over the three tiers. -/
def llegadasDe (x : List Mat) (i : Nat) : Int :=
  sumList ((List.range 3).map (fun k => colSuma (x.getD k []) i))

/-- The recomputed final distribution `q`. -/
def qFinalDe (x : List Mat) (p : List Int) (m : Nat) : List Int :=
  (List.range m).map (fun i => p.getD i 0 - salidasDe x i + llegadasDe x i)

/-- The per-tier, per-opinion comparison results of the constraint-1 loop. -/
def conservDe (x : List Mat) (s : Mat) (m : Nat) : List (List Bool) :=
  (List.range 3).map (fun k => (List.range m).map (fun i =>
    decide (filaSuma (x.getD k []) i > (s.getD i []).getD k 0)))

/-- Whether the constraint-1 loop records any violation. -/
def viol1De (x : List Mat) (s : Mat) (m : Nat) : Bool :=
  (conservDe x s m).flatten.any id

/-- The per-tier, per-opinion diagonal checks of the constraint-2 loop. -/
def autoDe (x : List Mat) (m : Nat) : List (List Bool) :=
  (List.range 3).map (fun k => (List.range m).map (fun i =>
    decide (((x.getD k []).getD i []).getD i 0 > 0)))

/-- Whether the constraint-2 loop records any violation. -/
def viol2De (x : List Mat) (m : Nat) : Bool :=
  (autoDe x m).flatten.any id

/-- One cost term of constraint 4. -/
def costoTerm (x : List Mat) (k i j : Nat) : Rat :=
  if i = j then 0 else
    if ((x.getD k []).getD i []).getD j 0 > 0 then
      (((x.getD k []).getD i []).getD j 0 : Rat) *
        ((|(i : Int) - (j : Int)| : Int) : Rat) * resistencia.getD k 0
    else 0

/-- The nested cost-term table of constraint 4. -/
def costoTermsDe (x : List Mat) (m : Nat) : List (List (List Rat)) :=
  (List.range 3).map (fun k => (List.range m).map (fun i =>
    (List.range m).map (fun j => costoTerm x k i j)))

/-- The recomputed total cost of constraint 4. -/
def costoDe (x : List Mat) (m : Nat) : Rat :=
  sumRat (costoTermsDe x m).flatten.flatten

/-- One movement term of constraint 5. -/
def movTerm (x : List Mat) (k i j : Nat) : Int :=
  if i = j then 0 else
    ((x.getD k []).getD i []).getD j 0 * |(i : Int) - (j : Int)|

/-- The nested movement-term table of constraint 5. -/
def movTermsDe (x : List Mat) (m : Nat) : List (List (List Int)) :=
  (List.range 3).map (fun k => (List.range m).map (fun i =>
    (List.range m).map (fun j => movTerm x k i j)))

/-- The recomputed total movement count of constraint 5. -/
def movsDe (x : List Mat) (m : Nat) : Int :=
  sumList (movTermsDe x m).flatten.flatten

/-- Total version of the weighted-median loop. -/
def medGoP (v : List Rat) (pos : Int) : List Int → Int → Nat → Option Rat
  | [], _, _ => none
  | q :: rest, acum, i =>
    if acum + q ≥ pos then some (v.getD i 0)
    else medGoP v pos rest (acum + q) (i + 1)

/-- The recomputed weighted median of the objective section. -/
def medianaDe (x : List Mat) (p : List Int) (v : List Rat) (n : Int) (m : Nat) : Rat :=
  (medGoP v (Int.fdiv (n + 1) 2) (qFinalDe x p m) 0 0).getD (v.getD 0 0)

/-- The polarization terms of the objective section, taking the median as a
parameter. -/
def polTermsDe (q : List Int) (v : List Rat) (m : Nat) (med : Rat) : List Rat :=
  (List.range m).map (fun i => (q.getD i 0 : Rat) * |v.getD i 0 - med|)

/-- The recomputed polarization of the objective section. -/
def polDe (x : List Mat) (p : List Int) (v : List Rat) (n : Int) (m : Nat) : Rat :=
  sumRat (polTermsDe (qFinalDe x p m) v m (medianaDe x p v n m))

/-- The nested table of optional nonzero-move records. -/
def detalleTermsDe (x : List Mat) (m : Nat) :
    List (List (List (Option (Nat × Nat × Nat × Int)))) :=
  (List.range 3).map (fun k => (List.range m).map (fun i =>
    (List.range m).map (fun j =>
      if ((x.getD k []).getD i []).getD j 0 > 0 then
        some (k, i, j, ((x.getD k []).getD i []).getD j 0)
      else none)))

/-- The nonzero-move listing. -/
def detalleDe (x : List Mat) (m : Nat) : List (Nat × Nat × Nat × Int) :=
  (detalleTermsDe x m).flatten.flatten.filterMap id

/-- The full report assembled from the pure evaluators. -/
def reporteDe (x : List Mat) (p : List Int) (s : Mat) (v : List Rat)
    (n : Int) (m : Nat) (ct_max maxMovs : Rat) : Reporte :=
  { c1 := !viol1De x s m
    c2 := !viol2De x m
    c3 := decide (sumList (qFinalDe x p m) = n)
    c4 := decide (¬ costoDe x m > ct_max + 1/100)
    c5 := decide (¬ (movsDe x m : Rat) > maxMovs + 1/100)
    qFinal := qFinalDe x p m
    costoTotal := costoDe x m
    movimientosTotales := movsDe x m
    mediana := medianaDe x p v n m
    polarizacion := polDe x p v n m
    valido := !viol1De x s m && !viol2De x m &&
      decide (sumList (qFinalDe x p m) = n) &&
      decide (¬ costoDe x m > ct_max + 1/100) &&
      decide (¬ (movsDe x m : Rat) > maxMovs + 1/100)
    detalle := detalleDe x m }

/-! ### Infrastructure lemmas for the checker embedding -/

theorem exc_ok_bind {α β : Type} (a : α) (f : α → Except ChkErr β) :
    (Except.ok a >>= f) = f a := rfl

theorem exc_error_bind {α β : Type} (e : ChkErr) (f : α → Except ChkErr β) :
    ((Except.error e : Except ChkErr α) >>= f) = Except.error e := rfl

theorem pyIdx_ok {α : Type} (l : List α) (i : Nat) (d : α) (h : i < l.length) :
    pyIdx l i = Except.ok (l.getD i d) := by
  simp [pyIdx, List.get?_eq_getElem?, List.getElem?_eq_getElem h,
    List.getD_eq_getElem l d h]

theorem pyIdx_err {α : Type} (l : List α) (i : Nat) (h : l.length ≤ i) :
    pyIdx l i = Except.error ChkErr.shape := by
  simp [pyIdx, List.get?_eq_getElem?, List.getElem?_eq_none h]

theorem getD_mem {α : Type} (l : List α) (i : Nat) (d : α) (h : i < l.length) :
    l.getD i d ∈ l := by
  rw [List.getD_eq_getElem l d h]; exact List.getElem_mem h

theorem mapM_ok {α β : Type} {l : List α} {f : α → Except ChkErr β}
    {g : α → β} (h : ∀ a ∈ l, f a = Except.ok (g a)) :
    l.mapM f = Except.ok (l.map g) := by
  induction l with
  | nil => rfl
  | cons a rest ih =>
      rw [List.mapM_cons, h a (List.mem_cons_self a rest), exc_ok_bind,
        ih (fun b hb => h b (List.mem_cons_of_mem a hb)), exc_ok_bind]
      rfl

theorem medGo_eval (v : List Rat) (pos : Int) :
    ∀ (q : List Int) (a : Int) (i : Nat), i + q.length ≤ v.length →
      medGo v pos q a i = Except.ok (medGoP v pos q a i) := by
  intro q
  induction q with
  | nil => intro a i _; rfl
  | cons hd rest ih =>
      intro a i h
      simp only [medGo, medGoP]
      by_cases hge : a + hd ≥ pos
      · rw [if_pos hge, if_pos hge,
          pyIdx_ok v i 0 (by simp at h; omega)]
        rfl
      · rw [if_neg hge, if_neg hge]
        exact ih (a + hd) (i + 1) (by simp at h ⊢; omega)

theorem chkConserv_eval (x : List Mat) (s : Mat) (m : Nat)
    (h : ∀ k, k < 3 → (x.getD k []).length = m)
    (h2 : s.length = m) (h3 : ∀ i, i < m → (s.getD i []).length = 3) :
    chkConserv x s m = Except.ok (conservDe x s m) := by
  apply mapM_ok
  intro k hk
  rw [List.mem_range] at hk
  apply mapM_ok
  intro i hi
  rw [List.mem_range] at hi
  rw [show (do
        let row ← pyIdx (x.getD k []) i
        let srow ← pyIdx s i
        let disp ← pyIdx srow k
        pure (decide (sumList row > disp)) : Except ChkErr Bool) =
      (pyIdx (x.getD k []) i >>= fun row => pyIdx s i >>= fun srow =>
        pyIdx srow k >>= fun disp => pure (decide (sumList row > disp))) from rfl,
    pyIdx_ok (x.getD k []) i [] (by rw [h k hk]; exact hi), exc_ok_bind,
    pyIdx_ok s i [] (by rw [h2]; exact hi), exc_ok_bind,
    pyIdx_ok (s.getD i []) k 0 (by rw [h3 i hi]; exact hk), exc_ok_bind]
  rfl

theorem chkAuto_eval (x : List Mat) (m : Nat)
    (h : ∀ k, k < 3 → (x.getD k []).length = m)
    (hr : ∀ mk ∈ x, ∀ r ∈ mk, r.length = m) (hx : x.length = 3) :
    chkAuto x m = Except.ok (autoDe x m) := by
  apply mapM_ok
  intro k hk
  rw [List.mem_range] at hk
  apply mapM_ok
  intro i hi
  rw [List.mem_range] at hi
  rw [pyIdx_ok (x.getD k []) i [] (by rw [h k hk]; exact hi), exc_ok_bind,
    pyIdx_ok ((x.getD k []).getD i []) i 0 (by
      rw [hr (x.getD k []) (getD_mem x k [] (by omega))
        ((x.getD k []).getD i []) (getD_mem _ i [] (by rw [h k hk]; exact hi))]
      exact hi), exc_ok_bind]
  rfl

theorem salM_eval (x : List Mat) (i m : Nat) (hi : i < m)
    (h : ∀ k, k < 3 → (x.getD k []).length = m) :
    (List.range 3).mapM (fun k => (do
      let row ← pyIdx (x.getD k []) i
      pure (sumList row) : Except ChkErr Int)) =
    Except.ok ((List.range 3).map (fun k => filaSuma (x.getD k []) i)) := by
  apply mapM_ok
  intro k hk
  rw [List.mem_range] at hk
  rw [pyIdx_ok (x.getD k []) i [] (by rw [h k hk]; exact hi), exc_ok_bind]
  rfl

theorem llegM_eval (x : List Mat) (i m : Nat) (hi : i < m) (hx : x.length = 3)
    (h : ∀ k, k < 3 → (x.getD k []).length = m)
    (hr : ∀ mk ∈ x, ∀ r ∈ mk, r.length = m) :
    (List.range 3).mapM (fun k => (do
      let col ← (x.getD k []).mapM (fun row => pyIdx row i)
      pure (sumList col) : Except ChkErr Int)) =
    Except.ok ((List.range 3).map (fun k => colSuma (x.getD k []) i)) := by
  apply mapM_ok
  intro k hk
  rw [List.mem_range] at hk
  rw [mapM_ok (fun row hrow =>
    pyIdx_ok row i 0 (by
      rw [hr (x.getD k []) (getD_mem x k [] (by omega)) row hrow]; exact hi)),
    exc_ok_bind]
  rfl

theorem distFinal_eval (x : List Mat) (p : List Int) (m : Nat) (hx : x.length = 3)
    (h : ∀ k, k < 3 → (x.getD k []).length = m)
    (hr : ∀ mk ∈ x, ∀ r ∈ mk, r.length = m) (hp : p.length = m) :
    distFinal x p m = Except.ok (qFinalDe x p m) := by
  apply mapM_ok
  intro i hi
  rw [List.mem_range] at hi
  rw [salM_eval x i m hi h, exc_ok_bind, llegM_eval x i m hi hx h hr, exc_ok_bind,
    pyIdx_ok p i 0 (by rw [hp]; exact hi), exc_ok_bind]
  rfl

theorem costoTermsM_eval (x : List Mat) (m : Nat) (hx : x.length = 3)
    (h : ∀ k, k < 3 → (x.getD k []).length = m)
    (hr : ∀ mk ∈ x, ∀ r ∈ mk, r.length = m) :
    costoTermsM x m = Except.ok (costoTermsDe x m) := by
  apply mapM_ok
  intro k hk
  rw [List.mem_range] at hk
  apply mapM_ok
  intro i hi
  rw [List.mem_range] at hi
  apply mapM_ok
  intro j hj
  rw [List.mem_range] at hj
  by_cases hij : i = j
  · simp only [hij, if_pos rfl, costoTerm, if_pos rfl]
    rfl
  · rw [if_neg hij,
      pyIdx_ok (x.getD k []) i [] (by rw [h k hk]; exact hi), exc_ok_bind,
      pyIdx_ok ((x.getD k []).getD i []) j 0 (by
        rw [hr (x.getD k []) (getD_mem x k [] (by omega))
          ((x.getD k []).getD i []) (getD_mem _ i [] (by rw [h k hk]; exact hi))]
        exact hj), exc_ok_bind]
    simp only [costoTerm, if_neg hij]
    rfl

theorem movTermsM_eval (x : List Mat) (m : Nat) (hx : x.length = 3)
    (h : ∀ k, k < 3 → (x.getD k []).length = m)
    (hr : ∀ mk ∈ x, ∀ r ∈ mk, r.length = m) :
    movTermsM x m = Except.ok (movTermsDe x m) := by
  apply mapM_ok
  intro k hk
  rw [List.mem_range] at hk
  apply mapM_ok
  intro i hi
  rw [List.mem_range] at hi
  apply mapM_ok
  intro j hj
  rw [List.mem_range] at hj
  by_cases hij : i = j
  · simp only [hij, if_pos rfl, movTerm, if_pos rfl]
    rfl
  · rw [if_neg hij,
      pyIdx_ok (x.getD k []) i [] (by rw [h k hk]; exact hi), exc_ok_bind,
      pyIdx_ok ((x.getD k []).getD i []) j 0 (by
        rw [hr (x.getD k []) (getD_mem x k [] (by omega))
          ((x.getD k []).getD i []) (getD_mem _ i [] (by rw [h k hk]; exact hi))]
        exact hj), exc_ok_bind]
    simp only [movTerm, if_neg hij]
    rfl

theorem polTermsM_eval (q : List Int) (v : List Rat) (m : Nat) (med : Rat)
    (hq : q.length = m) (hv : v.length = m) :
    polTermsM q v m med = Except.ok (polTermsDe q v m med) := by
  apply mapM_ok
  intro i hi
  rw [List.mem_range] at hi
  rw [pyIdx_ok q i 0 (by rw [hq]; exact hi), exc_ok_bind,
    pyIdx_ok v i 0 (by rw [hv]; exact hi), exc_ok_bind]
  rfl

theorem detalleM_eval (x : List Mat) (m : Nat) (hx : x.length = 3)
    (h : ∀ k, k < 3 → (x.getD k []).length = m)
    (hr : ∀ mk ∈ x, ∀ r ∈ mk, r.length = m) :
    detalleM x m = Except.ok (detalleTermsDe x m) := by
  apply mapM_ok
  intro k hk
  rw [List.mem_range] at hk
  apply mapM_ok
  intro i hi
  rw [List.mem_range] at hi
  apply mapM_ok
  intro j hj
  rw [List.mem_range] at hj
  rw [pyIdx_ok (x.getD k []) i [] (by rw [h k hk]; exact hi), exc_ok_bind,
    pyIdx_ok ((x.getD k []).getD i []) j 0 (by
      rw [hr (x.getD k []) (getD_mem x k [] (by omega))
        ((x.getD k []).getD i []) (getD_mem _ i [] (by rw [h k hk]; exact hi))]
      exact hj), exc_ok_bind]
  rfl

theorem exc_pure_bind {α β : Type} (a : α) (f : α → Except ChkErr β) :
    ((pure a : Except ChkErr α) >>= f) = f a := rfl

/-- Master evaluation lemma: on a well-shaped instance (three `m × m` move
matrices, `p`, `v` of length `m`, `s` of shape `m × 3`, `m ≥ 1`) the checker
either raises the modelled `ZeroDivisionError` of the constraint-4 or
constraint-5 success message, or returns the report assembled by the pure
evaluators. -/
theorem verificar_eval (x : List Mat) (p : List Int) (s : Mat) (v : List Rat)
    (n : Int) (m : Nat) (c t : Rat) (hx : x.length = 3)
    (hxm : ∀ mk ∈ x, mk.length = m) (hxr : ∀ mk ∈ x, ∀ r ∈ mk, r.length = m)
    (hp : p.length = m) (hs : s.length = m) (hsr : ∀ r ∈ s, r.length = 3)
    (hv : v.length = m) (hm : 1 ≤ m) :
    verificar_solucion x p s v n m c t =
      if (¬ costoDe x m > c + 1/100) ∧ c = 0 ∧ costoDe x m = 0 then
        Except.error ChkErr.zeroDiv
      else if (¬ (movsDe x m : Rat) > t + 1/100) ∧ t = 0 ∧ m ≤ 1 then
        Except.error ChkErr.zeroDiv
      else Except.ok (reporteDe x p s v n m c t) := by
  have h1 : ∀ k, k < 3 → (x.getD k []).length = m := fun k hk =>
    hxm _ (getD_mem x k [] (by omega))
  have h3 : ∀ i, i < m → (s.getD i []).length = 3 := fun i hi =>
    hsr _ (getD_mem s i [] (by omega))
  have hq : (qFinalDe x p m).length = m := by simp [qFinalDe]
  unfold verificar_solucion
  rw [pyIdx_ok x 0 [] (by omega)]
  simp only [exc_ok_bind]
  rw [pyIdx_ok x 1 [] (by omega)]
  simp only [exc_ok_bind]
  rw [pyIdx_ok x 2 [] (by omega)]
  simp only [exc_ok_bind]
  rw [chkConserv_eval x s m h1 hs h3]
  simp only [exc_ok_bind]
  rw [chkAuto_eval x m h1 hxr hx]
  simp only [exc_ok_bind]
  rw [distFinal_eval x p m hx h1 hxr hp]
  simp only [exc_ok_bind]
  rw [costoTermsM_eval x m hx h1 hxr]
  simp only [exc_ok_bind, decide_eq_true_eq, costoDe, movsDe]
  by_cases h4 : (¬ sumRat (costoTermsDe x m).flatten.flatten > c + 1/100) ∧
      c = 0 ∧ sumRat (costoTermsDe x m).flatten.flatten = 0
  · rw [if_pos h4, if_pos h4]
    rfl
  · rw [if_neg h4, if_neg h4]
    simp only [exc_pure_bind]
    rw [movTermsM_eval x m hx h1 hxr]
    simp only [exc_ok_bind, decide_eq_true_eq]
    by_cases h5 : (¬ ((sumList (movTermsDe x m).flatten.flatten : Int) : Rat) > t + 1/100) ∧
        t = 0 ∧ m ≤ 1
    · rw [if_pos h5, if_pos h5]
      rfl
    · rw [if_neg h5, if_neg h5]
      rw [pyIdx_ok v 0 0 (by omega)]
      simp only [exc_ok_bind]
      rw [medGo_eval v (Int.fdiv (n + 1) 2) (qFinalDe x p m) 0 0 (by omega)]
      simp only [exc_ok_bind]
      rw [polTermsM_eval (qFinalDe x p m) v m _ hq hv]
      simp only [exc_ok_bind]
      rw [detalleM_eval x m hx h1 hxr]
      simp only [exc_ok_bind]
      simp only [reporteDe, viol1De, viol2De, costoDe, movsDe, medianaDe, polDe,
        detalleDe]
      rfl

theorem exc_bind_ok {α β : Type} {a : Except ChkErr α} {f : α → Except ChkErr β}
    {r : β} (h : (a >>= f) = Except.ok r) :
    ∃ w, a = Except.ok w ∧ f w = Except.ok r := by
  cases a with
  | ok w => exact ⟨w, rfl, h⟩
  | error e => rw [exc_error_bind] at h; simp at h

/-- **C3.** Whenever `verificar_solucion` returns a report, its final verdict
`valido` is `true` exactly when the five constraint flags are all `true`.
The checker takes no solver-reported polarization at all, so the recomputed
polarization is never compared with one in the verdict. -/
theorem claim_C3 (x : List Mat) (p : List Int) (s : Mat) (v : List Rat)
    (n : Int) (m : Nat) (c t : Rat) (r : Reporte)
    (h : verificar_solucion x p s v n m c t = Except.ok r) :
    r.valido = true ↔
      (r.c1 = true ∧ r.c2 = true ∧ r.c3 = true ∧ r.c4 = true ∧ r.c5 = true) := by
  unfold verificar_solucion at h
  obtain ⟨w0, -, h⟩ := exc_bind_ok h
  obtain ⟨w1, -, h⟩ := exc_bind_ok h
  obtain ⟨w2, -, h⟩ := exc_bind_ok h
  obtain ⟨r1, -, h⟩ := exc_bind_ok h
  obtain ⟨r2, -, h⟩ := exc_bind_ok h
  obtain ⟨q, -, h⟩ := exc_bind_ok h
  obtain ⟨ct4, -, h⟩ := exc_bind_ok h
  dsimp only at h
  split at h
  · exact absurd (show (Except.error ChkErr.zeroDiv : Except ChkErr Reporte) =
      Except.ok r from h) (by simp)
  · obtain ⟨u1, -, h⟩ := exc_bind_ok h
    obtain ⟨mt5, -, h⟩ := exc_bind_ok h
    split at h
    · exact absurd (show (Except.error ChkErr.zeroDiv : Except ChkErr Reporte) =
        Except.ok r from h) (by simp)
    · obtain ⟨u2, -, h⟩ := exc_bind_ok h
      obtain ⟨v0, -, h⟩ := exc_bind_ok h
      obtain ⟨medOpt, -, h⟩ := exc_bind_ok h
      obtain ⟨polT, -, h⟩ := exc_bind_ok h
      obtain ⟨det, -, h⟩ := exc_bind_ok h
      injection h with h
      subst h
      simp [Bool.and_eq_true, and_assoc]

theorem exc_pure_ne_error {α : Type} (a : α) (e : ChkErr) :
    (pure a : Except ChkErr α) ≠ Except.error e := fun h => Except.noConfusion h

theorem claim_C3_witness :
    ({ c1 := true, c2 := true, c3 := true, c4 := true, c5 := true,
       qFinal := [5, 5], costoTotal := 0, movimientosTotales := 0,
       mediana := 0, polarizacion := 5, valido := true,
       detalle := [] } : Reporte).valido = true ↔
      (({ c1 := true, c2 := true, c3 := true, c4 := true, c5 := true,
          qFinal := [5, 5], costoTotal := 0, movimientosTotales := 0,
          mediana := 0, polarizacion := 5, valido := true,
          detalle := [] } : Reporte).c1 = true ∧
       ({ c1 := true, c2 := true, c3 := true, c4 := true, c5 := true,
          qFinal := [5, 5], costoTotal := 0, movimientosTotales := 0,
          mediana := 0, polarizacion := 5, valido := true,
          detalle := [] } : Reporte).c2 = true ∧
       ({ c1 := true, c2 := true, c3 := true, c4 := true, c5 := true,
          qFinal := [5, 5], costoTotal := 0, movimientosTotales := 0,
          mediana := 0, polarizacion := 5, valido := true,
          detalle := [] } : Reporte).c3 = true ∧
       ({ c1 := true, c2 := true, c3 := true, c4 := true, c5 := true,
          qFinal := [5, 5], costoTotal := 0, movimientosTotales := 0,
          mediana := 0, polarizacion := 5, valido := true,
          detalle := [] } : Reporte).c4 = true ∧
       ({ c1 := true, c2 := true, c3 := true, c4 := true, c5 := true,
          qFinal := [5, 5], costoTotal := 0, movimientosTotales := 0,
          mediana := 0, polarizacion := 5, valido := true,
          detalle := [] } : Reporte).c5 = true) :=
  claim_C3 [[[0,0],[0,0]], [[0,0],[0,0]], [[0,0],[0,0]]]
    [5,5] [[3,3,3],[3,3,3]] [0,1] 10 2 10 10 _ (by
      rw [verificar_eval _ _ _ _ _ _ _ _ (by decide) (by decide) (by decide)
        (by decide) (by decide) (by decide) (by decide) (by decide),
        if_neg (by norm_num), if_neg (by norm_num)]
      simp only [reporteDe, viol1De, viol2De, conservDe, autoDe, qFinalDe,
        costoDe, costoTermsDe, costoTerm, movsDe, movTermsDe, movTerm,
        medianaDe, polDe, polTermsDe, detalleDe, detalleTermsDe, medGoP,
        salidasDe, llegadasDe, filaSuma, colSuma, sumList, sumRat, resistencia,
        List.range_succ]
      norm_num [medGoP, Int.fdiv])

theorem pyIdx_err_eq {α : Type} {l : List α} {i : Nat} {e : ChkErr}
    (h : pyIdx l i = Except.error e) : e = ChkErr.shape := by
  unfold pyIdx at h
  cases hg : l.get? i with
  | some a => rw [hg] at h; simp at h
  | none => rw [hg] at h; exact (Except.error.inj h).symm

theorem bind_err_cases {α β : Type} {a : Except ChkErr α}
    {f : α → Except ChkErr β} {e : ChkErr} (h : (a >>= f) = Except.error e) :
    a = Except.error e ∨ ∃ w, a = Except.ok w ∧ f w = Except.error e := by
  cases a with
  | ok w => exact Or.inr ⟨w, rfl, h⟩
  | error e2 =>
      rw [exc_error_bind] at h
      exact Or.inl (by rw [Except.error.inj h])

theorem mapM_err {α β : Type} {l : List α} {f : α → Except ChkErr β}
    {e : ChkErr} (h : l.mapM f = Except.error e) :
    ∃ a ∈ l, f a = Except.error e := by
  induction l with
  | nil =>
      rw [List.mapM_nil] at h
      exact absurd h (exc_pure_ne_error _ _)
  | cons a rest ih =>
      rw [List.mapM_cons] at h
      rcases bind_err_cases h with h1 | ⟨w, -, h2⟩
      · exact ⟨a, List.mem_cons_self a rest, h1⟩
      · rcases bind_err_cases h2 with h3 | ⟨w2, -, h4⟩
        · obtain ⟨b, hb, hb2⟩ := ih h3
          exact ⟨b, List.mem_cons_of_mem a hb, hb2⟩
        · exact absurd h4 (exc_pure_ne_error _ _)

theorem mapM_ok_forall {α β : Type} {l : List α} {f : α → Except ChkErr β}
    {w : List β} (h : l.mapM f = Except.ok w) :
    ∀ a ∈ l, ∃ b, f a = Except.ok b := by
  induction l generalizing w with
  | nil => intro a ha; simp at ha
  | cons a rest ih =>
      intro b hb
      rw [List.mapM_cons] at h
      obtain ⟨w1, hw1, h2⟩ := exc_bind_ok h
      obtain ⟨w2, hw2, -⟩ := exc_bind_ok h2
      rcases List.mem_cons.1 hb with hb | hb
      · exact ⟨w1, hb ▸ hw1⟩
      · exact ih hw2 b hb

theorem chkConserv_err {x : List Mat} {s : Mat} {m : Nat} {e : ChkErr}
    (h : chkConserv x s m = Except.error e) : e = ChkErr.shape := by
  obtain ⟨k, -, hk⟩ := mapM_err h
  obtain ⟨i, -, hi⟩ := mapM_err hk
  rcases bind_err_cases hi with h1 | ⟨w, -, h2⟩
  · exact pyIdx_err_eq h1
  · rcases bind_err_cases h2 with h3 | ⟨w2, -, h4⟩
    · exact pyIdx_err_eq h3
    · rcases bind_err_cases h4 with h5 | ⟨w3, -, h6⟩
      · exact pyIdx_err_eq h5
      · exact absurd h6 (exc_pure_ne_error _ _)

theorem chkConserv_shape {x : List Mat} {s : Mat} {m : Nat}
    (h : ∃ k, k < 3 ∧ (x.getD k []).length < m) :
    chkConserv x s m = Except.error ChkErr.shape := by
  cases hres : chkConserv x s m with
  | error e => rw [chkConserv_err hres]
  | ok w =>
      exfalso
      obtain ⟨k, hk3, hklen⟩ := h
      obtain ⟨wk, hwk⟩ := mapM_ok_forall hres k (List.mem_range.2 hk3)
      obtain ⟨b, hb⟩ :=
        mapM_ok_forall hwk ((x.getD k []).length) (List.mem_range.2 hklen)
      obtain ⟨w1, hw1, -⟩ := exc_bind_ok hb
      rw [pyIdx_err (x.getD k []) _ (le_refl _)] at hw1
      simp at hw1

/-- **C10.** With `ct_max = 0` and well-shaped move matrices whose recomputed
total cost is `0`, the cost-budget check passes, and the checker then raises
`ZeroDivisionError` while formatting the constraint-4 success message
(`costo_total/ct_max`), instead of returning a report. -/
theorem claim_C10 (x : List Mat) (p : List Int) (s : Mat) (v : List Rat)
    (n : Int) (m : Nat) (t : Rat) (hx : x.length = 3)
    (hxm : ∀ mk ∈ x, mk.length = m) (hxr : ∀ mk ∈ x, ∀ r ∈ mk, r.length = m)
    (hp : p.length = m) (hs : s.length = m) (hsr : ∀ r ∈ s, r.length = 3)
    (hv : v.length = m) (hm : 1 ≤ m) (hc : costoDe x m = 0) :
    verificar_solucion x p s v n m 0 t = Except.error ChkErr.zeroDiv := by
  rw [verificar_eval x p s v n m 0 t hx hxm hxr hp hs hsr hv hm,
    if_pos (show (¬ costoDe x m > 0 + 1/100) ∧ (0 : Rat) = 0 ∧ costoDe x m = 0
      from ⟨by rw [hc]; norm_num, rfl, hc⟩)]

theorem claim_C10_witness :
    verificar_solucion [[[0,0],[0,0]], [[0,0],[0,0]], [[0,0],[0,0]]]
      [5,5] [[3,3,3],[3,3,3]] [0,1] 10 2 0 10 = Except.error ChkErr.zeroDiv :=
  claim_C10 [[[0,0],[0,0]], [[0,0],[0,0]], [[0,0],[0,0]]]
    [5,5] [[3,3,3],[3,3,3]] [0,1] 10 2 10 (by decide) (by decide) (by decide)
    (by decide) (by decide) (by decide) (by decide) (by decide)
    (by norm_num [costoDe, costoTermsDe, costoTerm, sumRat, resistencia,
      List.range_succ])

/-- **C9.** A `MoveMatrices` in which some tier's matrix has fewer than `m`
rows makes `verificar_solucion` fail with the out-of-range (shape) error:
the constraint-1 loop indexes past the end of that matrix.  Under well-formed
`m × m` matrices and matching parameter shapes, no shape error occurs. -/
theorem claim_C9 :
    (∀ (x : List Mat) (p : List Int) (s : Mat) (v : List Rat) (n : Int)
      (m : Nat) (c t : Rat), 0 < m → x.length = 3 →
      (∃ k, k < 3 ∧ (x.getD k []).length < m) →
      verificar_solucion x p s v n m c t = Except.error ChkErr.shape) ∧
    (∀ (x : List Mat) (p : List Int) (s : Mat) (v : List Rat) (n : Int)
      (m : Nat) (c t : Rat), x.length = 3 → (∀ mk ∈ x, mk.length = m) →
      (∀ mk ∈ x, ∀ r ∈ mk, r.length = m) → p.length = m → s.length = m →
      (∀ r ∈ s, r.length = 3) → v.length = m → 1 ≤ m →
      verificar_solucion x p s v n m c t ≠ Except.error ChkErr.shape) := by
  constructor
  · intro x p s v n m c t _hm hx hshort
    unfold verificar_solucion
    rw [pyIdx_ok x 0 [] (by omega)]
    simp only [exc_ok_bind]
    rw [pyIdx_ok x 1 [] (by omega)]
    simp only [exc_ok_bind]
    rw [pyIdx_ok x 2 [] (by omega)]
    simp only [exc_ok_bind]
    rw [chkConserv_shape hshort]
    rfl
  · intro x p s v n m c t hx hxm hxr hp hs hsr hv hm
    rw [verificar_eval x p s v n m c t hx hxm hxr hp hs hsr hv hm]
    split_ifs <;> simp

theorem claim_C9_witness :
    verificar_solucion [[[0,0],[0,0]], [[0,0]], [[0,0],[0,0]]]
      [5,5] [[3,3,3],[3,3,3]] [0,1] 10 2 10 10 = Except.error ChkErr.shape ∧
    verificar_solucion [[[0,0],[0,0]], [[0,0],[0,0]], [[0,0],[0,0]]]
      [5,5] [[3,3,3],[3,3,3]] [0,1] 10 2 10 10 ≠ Except.error ChkErr.shape :=
  ⟨claim_C9.1 [[[0,0],[0,0]], [[0,0]], [[0,0],[0,0]]] [5,5] [[3,3,3],[3,3,3]]
      [0,1] 10 2 10 10 (by decide) (by decide) ⟨1, by decide, by decide⟩,
   claim_C9.2 [[[0,0],[0,0]], [[0,0],[0,0]], [[0,0],[0,0]]] [5,5]
      [[3,3,3],[3,3,3]] [0,1] 10 2 10 10 (by decide) (by decide) (by decide)
      (by decide) (by decide) (by decide) (by decide) (by decide)⟩

theorem sumList_eq_sum (l : List Int) : sumList l = l.sum :=
  (List.sum_eq_foldl).symm

theorem sumRat_eq_sum (l : List Rat) : sumRat l = l.sum :=
  (List.sum_eq_foldl).symm

theorem sumList_cons (a : Int) (l : List Int) :
    sumList (a :: l) = a + sumList l := by
  rw [sumList_eq_sum, sumList_eq_sum, List.sum_cons]

theorem sumList_nil : sumList [] = 0 := rfl

/-- The weighted-median position of the spec, stated as the spec phrases it:
the smallest index `i` such that the cumulative sum of `q[0..i]` reaches
`pos`. -/
def specMedIdx (q : List Int) (pos : Int) : Option Nat :=
  (List.range q.length).find? (fun i => decide (sumList (q.take (i + 1)) ≥ pos))

theorem medGoP_eq_find (v : List Rat) (pos : Int) :
    ∀ (q : List Int) (a : Int) (i : Nat),
      medGoP v pos q a i =
        ((List.range q.length).find?
          (fun j => decide (a + sumList (q.take (j + 1)) ≥ pos))).map
          (fun j => v.getD (i + j) 0) := by
  intro q
  induction q with
  | nil => intro a i; rfl
  | cons hd rest ih =>
      intro a i
      by_cases hge : a + hd ≥ pos
      · rw [medGoP, if_pos hge, List.length_cons, List.range_succ_eq_map,
          List.find?_cons_of_pos _ (by
            simp only [List.take_succ_cons, List.take_zero, sumList_cons,
              sumList_nil, decide_eq_true_eq]
            omega)]
        simp
      · rw [medGoP, if_neg hge, ih (a + hd) (i + 1), List.length_cons,
          List.range_succ_eq_map,
          List.find?_cons_of_neg _ (by
            simp only [List.take_succ_cons, List.take_zero, sumList_cons,
              sumList_nil, decide_eq_true_eq]
            omega),
          List.find?_map, Option.map_map]
        have hfun : ((fun j => decide (a + sumList ((hd :: rest).take (j + 1)) ≥ pos)) ∘
            Nat.succ) = (fun j => decide (a + hd + sumList (rest.take (j + 1)) ≥ pos)) := by
          funext j
          simp only [Function.comp_apply, Nat.succ_eq_add_one, List.take_succ_cons,
            sumList_cons, decide_eq_decide]
          omega
        rw [hfun]
        congr 1
        funext j
        simp only [Function.comp_apply, Nat.succ_eq_add_one]
        congr 1
        omega

/-- **C2.** Whenever the checker returns a report (well-shaped inputs) and
some index's cumulative share of the recomputed distribution reaches
`(n+1)//2` (Python floor division, here `Int.fdiv`), the reported median is
`v[i]` at the smallest such index `i`, and the reported polarization is
`sum_i q[i] * |v[i] - med|`. -/
theorem claim_C2 (x : List Mat) (p : List Int) (s : Mat) (v : List Rat)
    (n : Int) (m : Nat) (c t : Rat) (r : Reporte) (i0 : Nat)
    (hx : x.length = 3) (hxm : ∀ mk ∈ x, mk.length = m)
    (hxr : ∀ mk ∈ x, ∀ w ∈ mk, w.length = m) (hp : p.length = m)
    (hs : s.length = m) (hsr : ∀ w ∈ s, w.length = 3) (hv : v.length = m)
    (hm : 1 ≤ m)
    (hfound : specMedIdx (qFinalDe x p m) (Int.fdiv (n + 1) 2) = some i0)
    (hok : verificar_solucion x p s v n m c t = Except.ok r) :
    r.mediana = v.getD i0 0 ∧
    r.polarizacion =
      sumRat ((List.range m).map (fun i =>
        (r.qFinal.getD i 0 : Rat) * |v.getD i 0 - r.mediana|)) := by
  rw [verificar_eval x p s v n m c t hx hxm hxr hp hs hsr hv hm] at hok
  split_ifs at hok
  injection hok with hok
  subst hok
  have hmed : medianaDe x p v n m = v.getD i0 0 := by
    unfold medianaDe
    rw [medGoP_eq_find]
    have hfun : (fun j => decide (0 + sumList ((qFinalDe x p m).take (j + 1)) ≥
        Int.fdiv (n + 1) 2)) = (fun j => decide (sumList ((qFinalDe x p m).take (j + 1)) ≥
        Int.fdiv (n + 1) 2)) := by
      funext j
      rw [zero_add]
    rw [hfun]
    unfold specMedIdx at hfound
    rw [hfound]
    simp
  constructor
  · exact hmed
  · show polDe x p v n m = _
    rw [polDe, polTermsDe]
    rfl

theorem claim_C2_witness :
    ({ c1 := true, c2 := true, c3 := true, c4 := true, c5 := true,
       qFinal := [5, 5], costoTotal := 0, movimientosTotales := 0,
       mediana := 0, polarizacion := 5, valido := true,
       detalle := [] } : Reporte).mediana = ([0, 1] : List Rat).getD 0 0 ∧
    ({ c1 := true, c2 := true, c3 := true, c4 := true, c5 := true,
       qFinal := [5, 5], costoTotal := 0, movimientosTotales := 0,
       mediana := 0, polarizacion := 5, valido := true,
       detalle := [] } : Reporte).polarizacion =
      sumRat ((List.range 2).map (fun i =>
        (({ c1 := true, c2 := true, c3 := true, c4 := true, c5 := true,
            qFinal := [5, 5], costoTotal := 0, movimientosTotales := 0,
            mediana := 0, polarizacion := 5, valido := true,
            detalle := [] } : Reporte).qFinal.getD i 0 : Rat) *
          |([0, 1] : List Rat).getD i 0 -
            ({ c1 := true, c2 := true, c3 := true, c4 := true, c5 := true,
               qFinal := [5, 5], costoTotal := 0, movimientosTotales := 0,
               mediana := 0, polarizacion := 5, valido := true,
               detalle := [] } : Reporte).mediana|)) :=
  claim_C2 [[[0,0],[0,0]], [[0,0],[0,0]], [[0,0],[0,0]]]
    [5,5] [[3,3,3],[3,3,3]] [0,1] 10 2 10 10 _ 0 (by decide) (by decide)
    (by decide) (by decide) (by decide) (by decide) (by decide) (by decide)
    (by decide)
    (by
      rw [verificar_eval _ _ _ _ _ _ _ _ (by decide) (by decide) (by decide)
        (by decide) (by decide) (by decide) (by decide) (by decide),
        if_neg (by norm_num), if_neg (by norm_num)]
      simp only [reporteDe, viol1De, viol2De, conservDe, autoDe, qFinalDe,
        costoDe, costoTermsDe, costoTerm, movsDe, movTermsDe, movTerm,
        medianaDe, polDe, polTermsDe, detalleDe, detalleTermsDe, medGoP,
        salidasDe, llegadasDe, filaSuma, colSuma, sumList, sumRat, resistencia,
        List.range_succ]
      norm_num [medGoP, Int.fdiv])

theorem getD_map_range {α : Type} (f : Nat → α) (m i : Nat) (d : α)
    (h : i < m) : ((List.range m).map f).getD i d = f i := by
  rw [List.getD_eq_getElem _ _ (by simpa using h), List.getElem_map,
    List.getElem_range]

theorem sum_range_delta {M : Type} [AddCommGroup M] (m j0 : Nat) (c : M)
    (h : j0 < m) :
    ((List.range m).map (fun j => if j = j0 then c else 0)).sum = c := by
  rw [show (fun j => if j = j0 then c else 0) =
      (fun j => if j = j0 then (fun _ => c) j else (fun _ => (0 : M)) j)
      from rfl, List.sum_map_ite_eq,
    List.count_eq_one_of_mem (List.nodup_range m) (List.mem_range.2 h)]
  simp

theorem sum_flatten_flatten {M : Type} [AddCommMonoid M]
    (A : List (List (List M))) :
    A.flatten.flatten.sum =
      (A.map (fun B => (B.map (fun l => l.sum)).sum)).sum := by
  induction A with
  | nil => rfl
  | cons B rest ih =>
      simp [List.flatten_cons, List.flatten_append, List.sum_append,
        List.sum_flatten, ih]

theorem s_entry_nonneg (s : Mat) (m : Nat) (hs : s.length = m)
    (hsr : ∀ w ∈ s, w.length = 3) (hsnn : ∀ w ∈ s, ∀ e ∈ w, 0 ≤ e)
    (i k : Nat) (hi : i < m) (hk : k < 3) :
    0 ≤ (s.getD i []).getD k 0 := by
  have hrow : s.getD i [] ∈ s := getD_mem s i [] (by omega)
  exact hsnn _ hrow _ (getD_mem _ k 0 (by rw [hsr _ hrow]; exact hk))

theorem viol1De_eq_false (x : List Mat) (s : Mat) (m : Nat)
    (h : ∀ k, k < 3 → ∀ i, i < m →
      filaSuma (x.getD k []) i ≤ (s.getD i []).getD k 0) :
    viol1De x s m = false := by
  rw [viol1De, List.any_eq_false]
  intro b hb
  rw [List.mem_flatten] at hb
  obtain ⟨l, hl, hbl⟩ := hb
  rw [conservDe] at hl
  obtain ⟨k, hk, rfl⟩ := List.mem_map.1 hl
  obtain ⟨i, hi, rfl⟩ := List.mem_map.1 hbl
  simp only [id, decide_eq_true_eq]
  exact not_lt.2 (h k (List.mem_range.1 hk) i (List.mem_range.1 hi))

/-- The all-zero `m × m` move matrix. -/
def zeroMat (m : Nat) : Mat :=
  (List.range m).map (fun _ => (List.range m).map (fun _ => (0 : Int)))

/-- The `m × m` move matrix whose only nonzero entry is `2` at row 0,
column 1 (the single move `x[1][0][1] = 2` of the spec's tier-2 example). -/
def singleMove2 (m : Nat) : Mat :=
  (List.range m).map (fun i => (List.range m).map (fun j =>
    if i = 0 ∧ j = 1 then (2 : Int) else 0))

/-- The move matrices of the C4 scenario: zero at tiers 1 and 3, the single
move at tier 2. -/
def xC4 (m : Nat) : List Mat := [zeroMat m, singleMove2 m, zeroMat m]

theorem zeroMat_entry (m i j : Nat) : ((zeroMat m).getD i []).getD j 0 = 0 := by
  by_cases hi : i < m
  · rw [zeroMat, getD_map_range _ _ _ _ hi]
    by_cases hj : j < m
    · rw [getD_map_range _ _ _ _ hj]
    · exact List.getD_eq_default _ _ (by simpa using not_lt.1 hj)
  · rw [show (zeroMat m).getD i [] = [] from
      List.getD_eq_default _ _ (by simp [zeroMat]; omega)]
    rfl

theorem singleMove2_entry (m i j : Nat) (hi : i < m) (hj : j < m) :
    ((singleMove2 m).getD i []).getD j 0 =
      if i = 0 ∧ j = 1 then 2 else 0 := by
  rw [singleMove2, getD_map_range _ _ _ _ hi, getD_map_range _ _ _ _ hj]

theorem filaSuma_zeroMat (m i : Nat) : filaSuma (zeroMat m) i = 0 := by
  by_cases hi : i < m
  · rw [filaSuma, zeroMat, getD_map_range _ _ _ _ hi, sumList_eq_sum]
    exact List.sum_eq_zero (by
      intro a ha
      obtain ⟨j, -, rfl⟩ := List.mem_map.1 ha
      rfl)
  · rw [filaSuma, zeroMat, List.getD_eq_default _ _ (by simpa using not_lt.1 hi)]
    rfl

theorem filaSuma_singleMove2 (m i : Nat) (hm : 2 ≤ m) :
    filaSuma (singleMove2 m) i = if i = 0 then 2 else 0 := by
  by_cases hi : i < m
  · rw [filaSuma, singleMove2, getD_map_range _ _ _ _ hi, sumList_eq_sum]
    by_cases hi0 : i = 0
    · subst hi0
      rw [show (fun j => if 0 = 0 ∧ j = 1 then (2 : Int) else 0) =
          (fun j => if j = 1 then (2 : Int) else 0) from by
          funext j; simp]
      rw [sum_range_delta m 1 2 (by omega)]
      simp
    · rw [show (fun j => if i = 0 ∧ j = 1 then (2 : Int) else 0) =
          (fun _ => (0 : Int)) from by funext j; simp [hi0]]
      rw [List.sum_eq_zero (by
        intro a ha
        obtain ⟨j, -, rfl⟩ := List.mem_map.1 ha
        rfl)]
      simp [hi0]
  · rw [filaSuma, singleMove2,
      List.getD_eq_default _ _ (by simpa using not_lt.1 hi)]
    have : i ≠ 0 := by omega
    simp [this, sumList_nil]

theorem colSuma_zeroMat (m j : Nat) : colSuma (zeroMat m) j = 0 := by
  rw [colSuma, zeroMat, List.map_map, sumList_eq_sum]
  exact List.sum_eq_zero (by
    intro a ha
    obtain ⟨i, -, rfl⟩ := List.mem_map.1 ha
    simp only [Function.comp_apply]
    by_cases hj : j < m
    · rw [getD_map_range _ _ _ _ hj]
    · rw [List.getD_eq_default _ _ (by simpa using not_lt.1 hj)])

theorem colSuma_singleMove2 (m j : Nat) (hm : 2 ≤ m) :
    colSuma (singleMove2 m) j = if j = 1 then 2 else 0 := by
  rw [colSuma, singleMove2, List.map_map, sumList_eq_sum]
  by_cases hj : j < m
  · have hfun : ((fun row => row.getD j 0) ∘ (fun i => (List.range m).map
        (fun j => if i = 0 ∧ j = 1 then (2 : Int) else 0))) =
        (fun i => if i = 0 ∧ j = 1 then (2 : Int) else 0) := by
      funext i
      simp only [Function.comp_apply]
      rw [getD_map_range _ _ _ _ hj]
    rw [hfun]
    by_cases hj1 : j = 1
    · subst hj1
      rw [show (fun i => if i = 0 ∧ 1 = 1 then (2 : Int) else 0) =
          (fun i => if i = 0 then (2 : Int) else 0) from by funext i; simp]
      rw [sum_range_delta m 0 2 (by omega)]
      simp
    · rw [show (fun i => if i = 0 ∧ j = 1 then (2 : Int) else 0) =
          (fun _ => (0 : Int)) from by funext i; simp [hj1]]
      rw [List.sum_eq_zero (by
        intro a ha
        obtain ⟨i, -, rfl⟩ := List.mem_map.1 ha
        rfl)]
      simp [hj1]
  · have hj1 : j ≠ 1 := by omega
    rw [show ((fun row => row.getD j 0) ∘ (fun i => (List.range m).map
        (fun j => if i = 0 ∧ j = 1 then (2 : Int) else 0))) =
        (fun _ => (0 : Int)) from by
        funext i
        simp only [Function.comp_apply]
        rw [List.getD_eq_default _ _ (by simpa using not_lt.1 hj)]]
    rw [List.sum_eq_zero (by
      intro a ha
      obtain ⟨i, -, rfl⟩ := List.mem_map.1 ha
      rfl)]
    simp [hj1]

theorem salidasDe_xC4 (m i : Nat) (hm : 2 ≤ m) :
    salidasDe (xC4 m) i = if i = 0 then 2 else 0 := by
  rw [salidasDe, show List.range 3 = [0, 1, 2] from rfl]
  simp only [List.map_cons, List.map_nil]
  rw [show (xC4 m).getD 0 [] = zeroMat m from rfl,
    show (xC4 m).getD 1 [] = singleMove2 m from rfl,
    show (xC4 m).getD 2 [] = zeroMat m from rfl,
    filaSuma_zeroMat, filaSuma_singleMove2 m i hm]
  by_cases hi0 : i = 0 <;> simp [hi0, sumList]

theorem llegadasDe_xC4 (m i : Nat) (hm : 2 ≤ m) :
    llegadasDe (xC4 m) i = if i = 1 then 2 else 0 := by
  rw [llegadasDe, show List.range 3 = [0, 1, 2] from rfl]
  simp only [List.map_cons, List.map_nil]
  rw [show (xC4 m).getD 0 [] = zeroMat m from rfl,
    show (xC4 m).getD 1 [] = singleMove2 m from rfl,
    show (xC4 m).getD 2 [] = zeroMat m from rfl,
    colSuma_zeroMat, colSuma_singleMove2 m i hm]
  by_cases hi1 : i = 1 <;> simp [hi1, sumList]

theorem costoTerm_xC4_zero (m k i j : Nat) (hk : k = 0 ∨ k = 2) :
    costoTerm (xC4 m) k i j = 0 := by
  have he : (((xC4 m).getD k []).getD i []).getD j 0 = 0 := by
    rcases hk with rfl | rfl
    · exact zeroMat_entry m i j
    · exact zeroMat_entry m i j
  rw [costoTerm]
  by_cases hij : i = j
  · rw [if_pos hij]
  · rw [if_neg hij, he]
    norm_num

theorem costoTerm_xC4_1 (m i j : Nat) (hi : i < m) (hj : j < m) :
    costoTerm (xC4 m) 1 i j = if i = 0 ∧ j = 1 then 3 else 0 := by
  have he : (((xC4 m).getD 1 []).getD i []).getD j 0 =
      if i = 0 ∧ j = 1 then 2 else 0 := singleMove2_entry m i j hi hj
  rw [costoTerm, he]
  by_cases h01 : i = 0 ∧ j = 1
  · obtain ⟨rfl, rfl⟩ := h01
    norm_num [resistencia]
  · by_cases hij : i = j
    · rw [if_pos hij, if_neg h01]
    · rw [if_neg hij]
      simp [h01]

theorem movTerm_xC4_zero (m k i j : Nat) (hk : k = 0 ∨ k = 2) :
    movTerm (xC4 m) k i j = 0 := by
  have he : (((xC4 m).getD k []).getD i []).getD j 0 = 0 := by
    rcases hk with rfl | rfl
    · exact zeroMat_entry m i j
    · exact zeroMat_entry m i j
  rw [movTerm]
  by_cases hij : i = j
  · rw [if_pos hij]
  · rw [if_neg hij, he, zero_mul]

theorem movTerm_xC4_1 (m i j : Nat) (hi : i < m) (hj : j < m) :
    movTerm (xC4 m) 1 i j = if i = 0 ∧ j = 1 then 2 else 0 := by
  have he : (((xC4 m).getD 1 []).getD i []).getD j 0 =
      if i = 0 ∧ j = 1 then 2 else 0 := singleMove2_entry m i j hi hj
  rw [movTerm, he]
  by_cases h01 : i = 0 ∧ j = 1
  · obtain ⟨rfl, rfl⟩ := h01
    norm_num
  · by_cases hij : i = j
    · rw [if_pos hij, if_neg h01]
    · rw [if_neg hij, if_neg h01, zero_mul]

theorem sum_tier_zero {M : Type} [AddCommMonoid M] (m : Nat) (f : Nat → Nat → M)
    (h : ∀ i j, i < m → j < m → f i j = 0) :
    ((List.range m).map (fun i =>
      ((List.range m).map (fun j => f i j)).sum)).sum = 0 := by
  apply List.sum_eq_zero
  intro a ha
  obtain ⟨i, hi, rfl⟩ := List.mem_map.1 ha
  apply List.sum_eq_zero
  intro b hb
  obtain ⟨j, hj, rfl⟩ := List.mem_map.1 hb
  exact h i j (List.mem_range.1 hi) (List.mem_range.1 hj)

theorem costoDe_xC4 (m : Nat) (hm : 2 ≤ m) : costoDe (xC4 m) m = 3 := by
  rw [costoDe, sumRat_eq_sum, sum_flatten_flatten, costoTermsDe,
    show List.range 3 = [0, 1, 2] from rfl]
  simp only [List.map_cons, List.map_nil, List.sum_cons, List.sum_nil,
    List.map_map, Function.comp_def]
  have h0 : ((List.range m).map (fun i =>
      ((List.range m).map (fun j => costoTerm (xC4 m) 0 i j)).sum)).sum = 0 :=
    sum_tier_zero m _ (fun i j _ _ => costoTerm_xC4_zero m 0 i j (Or.inl rfl))
  have h2 : ((List.range m).map (fun i =>
      ((List.range m).map (fun j => costoTerm (xC4 m) 2 i j)).sum)).sum = 0 :=
    sum_tier_zero m _ (fun i j _ _ => costoTerm_xC4_zero m 2 i j (Or.inr rfl))
  have hinner : ∀ i ∈ List.range m,
      ((List.range m).map (fun j => costoTerm (xC4 m) 1 i j)).sum =
        if i = 0 then 3 else 0 := by
    intro i hi
    rw [List.map_congr_left (fun j hj =>
      costoTerm_xC4_1 m i j (List.mem_range.1 hi) (List.mem_range.1 hj))]
    by_cases hi0 : i = 0
    · subst hi0
      rw [show (fun j => if 0 = 0 ∧ j = 1 then (3 : Rat) else 0) =
          (fun j => if j = 1 then (3 : Rat) else 0) from by funext j; simp]
      rw [sum_range_delta m 1 3 (by omega)]
      simp
    · rw [show (fun j => if i = 0 ∧ j = 1 then (3 : Rat) else 0) =
          (fun _ => (0 : Rat)) from by funext j; simp [hi0]]
      rw [List.sum_eq_zero (fun a ha => by
        obtain ⟨j, -, rfl⟩ := List.mem_map.1 ha
        rfl)]
      simp [hi0]
  rw [h0, h2, List.map_congr_left hinner, sum_range_delta m 0 3 (by omega)]
  norm_num

theorem movsDe_xC4 (m : Nat) (hm : 2 ≤ m) : movsDe (xC4 m) m = 2 := by
  rw [movsDe, sumList_eq_sum, sum_flatten_flatten, movTermsDe,
    show List.range 3 = [0, 1, 2] from rfl]
  simp only [List.map_cons, List.map_nil, List.sum_cons, List.sum_nil,
    List.map_map, Function.comp_def]
  have h0 : ((List.range m).map (fun i =>
      ((List.range m).map (fun j => movTerm (xC4 m) 0 i j)).sum)).sum = 0 :=
    sum_tier_zero m _ (fun i j _ _ => movTerm_xC4_zero m 0 i j (Or.inl rfl))
  have h2 : ((List.range m).map (fun i =>
      ((List.range m).map (fun j => movTerm (xC4 m) 2 i j)).sum)).sum = 0 :=
    sum_tier_zero m _ (fun i j _ _ => movTerm_xC4_zero m 2 i j (Or.inr rfl))
  have hinner : ∀ i ∈ List.range m,
      ((List.range m).map (fun j => movTerm (xC4 m) 1 i j)).sum =
        if i = 0 then 2 else 0 := by
    intro i hi
    rw [List.map_congr_left (fun j hj =>
      movTerm_xC4_1 m i j (List.mem_range.1 hi) (List.mem_range.1 hj))]
    by_cases hi0 : i = 0
    · subst hi0
      rw [show (fun j => if 0 = 0 ∧ j = 1 then (2 : Int) else 0) =
          (fun j => if j = 1 then (2 : Int) else 0) from by funext j; simp]
      rw [sum_range_delta m 1 2 (by omega)]
      simp
    · rw [show (fun j => if i = 0 ∧ j = 1 then (2 : Int) else 0) =
          (fun _ => (0 : Int)) from by funext j; simp [hi0]]
      rw [List.sum_eq_zero (fun a ha => by
        obtain ⟨j, -, rfl⟩ := List.mem_map.1 ha
        rfl)]
      simp [hi0]
  rw [h0, h2, List.map_congr_left hinner, sum_range_delta m 0 2 (by omega)]
  norm_num

/-- **C4.** With the single move `x[1][0][1] = 2` (tier 2, opinion 1 → 2),
all other entries zero, `s[0][1] ≥ 2` and large enough budgets, the checker
returns a report in which constraint 1 passes, the final distribution is `p`
with opinion 1 decreased by 2 and opinion 2 increased by 2, the recomputed
cost is `2 * 1 * 1.5 = 3.0` and the movement total is `2 * 1 = 2`. -/
theorem claim_C4 (m : Nat) (p : List Int) (s : Mat) (v : List Rat) (n : Int)
    (c t : Rat) (hm : 2 ≤ m) (hp : p.length = m) (hs : s.length = m)
    (hsr : ∀ w ∈ s, w.length = 3) (hsnn : ∀ w ∈ s, ∀ e ∈ w, 0 ≤ e)
    (hs01 : 2 ≤ (s.getD 0 []).getD 1 0) (hv : v.length = m)
    (hc : 3 ≤ c) (ht : 2 ≤ t) :
    ∃ r, verificar_solucion (xC4 m) p s v n m c t = Except.ok r ∧
      r.c1 = true ∧
      r.qFinal.length = m ∧
      r.qFinal.getD 0 0 = p.getD 0 0 - 2 ∧
      r.qFinal.getD 1 0 = p.getD 1 0 + 2 ∧
      (∀ i, 2 ≤ i → r.qFinal.getD i 0 = p.getD i 0) ∧
      r.costoTotal = 3 ∧
      r.movimientosTotales = 2 := by
  have hx : (xC4 m).length = 3 := rfl
  have hxm : ∀ mk ∈ xC4 m, mk.length = m := by
    intro mk hmk
    rcases (by simpa [xC4] using hmk : mk = zeroMat m ∨ mk = singleMove2 m ∨
      mk = zeroMat m) with rfl | rfl | rfl <;> simp [zeroMat, singleMove2]
  have hxr : ∀ mk ∈ xC4 m, ∀ w ∈ mk, w.length = m := by
    intro mk hmk w hw
    rcases (by simpa [xC4] using hmk : mk = zeroMat m ∨ mk = singleMove2 m ∨
      mk = zeroMat m) with rfl | rfl | rfl <;>
      · obtain ⟨i, -, rfl⟩ := List.mem_map.1 hw
        simp
  rw [verificar_eval (xC4 m) p s v n m c t hx hxm hxr hp hs hsr hv (by omega),
    if_neg (by
      rintro ⟨-, hc0, -⟩
      rw [hc0] at hc
      norm_num at hc),
    if_neg (by
      rintro ⟨-, -, hm1⟩
      omega)]
  refine ⟨reporteDe (xC4 m) p s v n m c t, rfl, ?_, ?_, ?_, ?_, ?_, ?_, ?_⟩
  · show (!viol1De (xC4 m) s m) = true
    rw [viol1De_eq_false (xC4 m) s m (by
      intro k hk i hi
      interval_cases k
      · rw [show (xC4 m).getD 0 [] = zeroMat m from rfl, filaSuma_zeroMat]
        exact s_entry_nonneg s m hs hsr hsnn i 0 hi (by omega)
      · rw [show (xC4 m).getD 1 [] = singleMove2 m from rfl,
          filaSuma_singleMove2 m i hm]
        by_cases hi0 : i = 0
        · subst hi0
          simpa using hs01
        · simp only [hi0, if_false]
          exact s_entry_nonneg s m hs hsr hsnn i 1 hi (by omega)
      · rw [show (xC4 m).getD 2 [] = zeroMat m from rfl, filaSuma_zeroMat]
        exact s_entry_nonneg s m hs hsr hsnn i 2 hi (by omega))]
    rfl
  · show (qFinalDe (xC4 m) p m).length = m
    simp [qFinalDe]
  · show (qFinalDe (xC4 m) p m).getD 0 0 = p.getD 0 0 - 2
    rw [qFinalDe, getD_map_range _ _ _ _ (by omega),
      salidasDe_xC4 m 0 hm, llegadasDe_xC4 m 0 hm]
    simp
  · show (qFinalDe (xC4 m) p m).getD 1 0 = p.getD 1 0 + 2
    rw [qFinalDe, getD_map_range _ _ _ _ (by omega),
      salidasDe_xC4 m 1 hm, llegadasDe_xC4 m 1 hm]
    simp
  · intro i h2
    show (qFinalDe (xC4 m) p m).getD i 0 = p.getD i 0
    by_cases hi : i < m
    · rw [qFinalDe, getD_map_range _ _ _ _ hi,
        salidasDe_xC4 m i hm, llegadasDe_xC4 m i hm]
      have h0 : i ≠ 0 := by omega
      have h1 : i ≠ 1 := by omega
      simp [h0, h1]
    · rw [List.getD_eq_default _ _ (by simp [qFinalDe]; omega),
        List.getD_eq_default _ _ (by omega)]
  · exact costoDe_xC4 m hm
  · exact movsDe_xC4 m hm

theorem claim_C4_witness :
    ∃ r, verificar_solucion (xC4 2) [5, 5] [[3, 3, 3], [3, 3, 3]] [0, 1]
        10 2 10 10 = Except.ok r ∧
      r.c1 = true ∧
      r.qFinal.length = 2 ∧
      r.qFinal.getD 0 0 = ([5, 5] : List Int).getD 0 0 - 2 ∧
      r.qFinal.getD 1 0 = ([5, 5] : List Int).getD 1 0 + 2 ∧
      (∀ i, 2 ≤ i → r.qFinal.getD i 0 = ([5, 5] : List Int).getD i 0) ∧
      r.costoTotal = 3 ∧
      r.movimientosTotales = 2 :=
  claim_C4 2 [5, 5] [[3, 3, 3], [3, 3, 3]] [0, 1] 10 10 10 (by decide)
    (by decide) (by decide) (by decide) (by decide) (by decide) (by decide)
    (by norm_num) (by norm_num)

/-- The three all-zero 3-by-3 move matrices of the C5 scenario. -/
def zeros3 : List Mat :=
  [[[0,0,0],[0,0,0],[0,0,0]], [[0,0,0],[0,0,0],[0,0,0]],
   [[0,0,0],[0,0,0],[0,0,0]]]

/-- **C5.** On `p = [3,3,4]`, `v = [0.297, 0.673, 0.809]`, `m = 3`, `n = 10`
and three all-zero move matrices, the checker reports a final distribution
equal to `p`, all five constraints passing with zero cost and zero
movements, and an overall valid verdict. -/
theorem claim_C5 (s : Mat) (c t : Rat) (hs : s.length = 3)
    (hsr : ∀ w ∈ s, w.length = 3) (hsnn : ∀ w ∈ s, ∀ e ∈ w, 0 ≤ e)
    (hc : 0 < c) (ht : 0 ≤ t) :
    ∃ r, verificar_solucion zeros3 [3, 3, 4] s
        [297/1000, 673/1000, 809/1000] 10 3 c t = Except.ok r ∧
      r.qFinal = [3, 3, 4] ∧ r.c1 = true ∧ r.c2 = true ∧ r.c3 = true ∧
      r.c4 = true ∧ r.c5 = true ∧ r.costoTotal = 0 ∧
      r.movimientosTotales = 0 ∧ r.valido = true := by
  have hcost : costoDe zeros3 3 = 0 := by
    norm_num [costoDe, costoTermsDe, costoTerm, sumRat, resistencia, zeros3,
      List.range_succ]
  have hmovs : movsDe zeros3 3 = 0 := by decide
  have hc4 : decide (¬ costoDe zeros3 3 > c + 1/100) = true := by
    rw [decide_eq_true_eq, hcost]
    intro hlt
    nlinarith [hc]
  have hc5 : decide (¬ ((movsDe zeros3 3 : Int) : Rat) > t + 1/100) = true := by
    rw [decide_eq_true_eq, hmovs]
    intro hlt
    norm_num at hlt
    nlinarith [ht]
  have hv1 : viol1De zeros3 s 3 = false := by
    apply viol1De_eq_false
    intro k hk i hi
    have hfs : filaSuma (zeros3.getD k []) i = 0 := by
      interval_cases k <;> interval_cases i <;> decide
    rw [hfs]
    exact s_entry_nonneg s 3 hs hsr hsnn i k hi hk
  rw [verificar_eval _ _ _ _ _ _ _ _ (by decide) (by decide) (by decide)
      (by decide) hs hsr (by decide) (by decide),
    if_neg (by
      rintro ⟨-, hc0, -⟩
      rw [hc0] at hc
      norm_num at hc),
    if_neg (by rintro ⟨-, -, hm1⟩; omega)]
  refine ⟨_, rfl, ?_, ?_, ?_, ?_, ?_, ?_, ?_, ?_, ?_⟩
  · show qFinalDe zeros3 [3, 3, 4] 3 = [3, 3, 4]
    decide
  · show (!viol1De zeros3 s 3) = true
    rw [hv1]
    rfl
  · show (!viol2De zeros3 3) = true
    decide
  · show decide (sumList (qFinalDe zeros3 [3, 3, 4] 3) = 10) = true
    decide
  · exact hc4
  · exact hc5
  · exact hcost
  · exact hmovs
  · show (!viol1De zeros3 s 3 && !viol2De zeros3 3 &&
      decide (sumList (qFinalDe zeros3 [3, 3, 4] 3) = 10) &&
      decide (¬ costoDe zeros3 3 > c + 1/100) &&
      decide (¬ ((movsDe zeros3 3 : Int) : Rat) > t + 1/100)) = true
    rw [hv1, hc4, hc5,
      show (!viol2De zeros3 3) = true from by decide,
      show decide (sumList (qFinalDe zeros3 [3, 3, 4] 3) = 10) = true from
        by decide]
    rfl

theorem claim_C5_witness :
    ∃ r, verificar_solucion zeros3 [3, 3, 4] [[1,1,1],[1,1,1],[2,1,1]]
        [297/1000, 673/1000, 809/1000] 10 3 (85/10) 5 = Except.ok r ∧
      r.qFinal = [3, 3, 4] ∧ r.c1 = true ∧ r.c2 = true ∧ r.c3 = true ∧
      r.c4 = true ∧ r.c5 = true ∧ r.costoTotal = 0 ∧
      r.movimientosTotales = 0 ∧ r.valido = true :=
  claim_C5 [[1,1,1],[1,1,1],[2,1,1]] (85/10) 5 (by decide) (by decide)
    (by decide) (by norm_num) (by norm_num)

/-! ### Embedding of `parse_minizinc_output` (utilities/parser.py lines 8-99)

Text is modelled as `List Char`.  The specific regular expressions the code
uses are embedded as deterministic matchers that implement the same
leftmost-match, greedy/lazy and backtracking behaviour on the pattern shapes
actually present (see the doc comment of each matcher).  The `search_area`
computed on lines 21-30 of the source is dead for all three returned values
(every extraction searches `output_text` in full), so it is not modelled. -/

/-- Python's `\s` whitespace class (ASCII). -/
def pyWs (c : Char) : Bool :=
  c = ' ' || c = '\t' || c = '\n' || c = '\r' || c = '\x0b' || c = '\x0c'

/-- Python `str.strip()`: drop `\s` characters from both ends. -/
def pyStrip (l : List Char) : List Char :=
  ((l.dropWhile pyWs).reverse.dropWhile pyWs).reverse

/-- Python `str.rstrip(';')`: drop trailing `';'` characters. -/
def pyRstripSemi (l : List Char) : List Char :=
  (l.reverse.dropWhile (fun c => c = ';')).reverse

/-- Case-insensitive literal matching: consume `lit` (ASCII-lowercased
comparison, modelling `re.IGNORECASE`) from the front of the text, returning
the remainder. -/
def stripLitCI : List Char → List Char → Option (List Char)
  | [], t => some t
  | _ :: _, [] => none
  | c :: cs, d :: ds => if c.toLower = d.toLower then stripLitCI cs ds else none

/-- Case-sensitive prefix test, used for the terminator alternatives (their
characters are unaffected by case). -/
def startsWithLit : List Char → List Char → Bool
  | [], _ => true
  | _ :: _, [] => false
  | c :: cs, d :: ds => c = d && startsWithLit cs ds

/-- `re.search` over all start positions, leftmost match first. -/
def reSearch {α : Type} (f : List Char → Option α) : List Char → Option α
  | [] => f []
  | c :: rest =>
    match f (c :: rest) with
    | some g => some g
    | none => reSearch f rest

/-- Value of a digit string (most significant first). -/
def digitsVal (l : List Char) : Nat :=
  l.foldl (fun a c => 10 * a + (c.toNat - '0'.toNat)) 0

/-- Model of Python's `int(str)` on the token shapes this program produces:
surrounding whitespace, an optional sign, then decimal digits.  (The builtin
also accepts underscores and unicode digits, which never appear here.) -/
def pyIntOf (l : List Char) : Option Int :=
  match pyStrip l with
  | '+' :: ds => if ds ≠ [] ∧ ds.all Char.isDigit then some (digitsVal ds) else none
  | '-' :: ds => if ds ≠ [] ∧ ds.all Char.isDigit then some (-(digitsVal ds : Int)) else none
  | ds => if ds ≠ [] ∧ ds.all Char.isDigit then some (digitsVal ds) else none

/-- The number group `([0-9]+\.[0-9]+|[0-9]+)` of the polarization patterns:
the alternation with greedy `[0-9]+` resolves to: take the maximal digit run;
if a `'.'` followed by at least one digit follows, include the dot and the
second maximal run, else return the first run alone.  Returns the group and
the remaining text. -/
def numGroup (t : List Char) : Option (List Char × List Char) :=
  let d1 := t.takeWhile Char.isDigit
  if d1 = [] then none
  else
    match t.drop d1.length with
    | '.' :: r2 =>
      let d2 := r2.takeWhile Char.isDigit
      if d2 = [] then some (d1, '.' :: r2)
      else some (d1 ++ '.' :: d2, r2.drop d2.length)
    | rest => some (d1, rest)

/-- Matcher for `Polarizacion\s+final:\s*([0-9]+\.[0-9]+|[0-9]+)\s*`
(IGNORECASE) at a fixed position; the trailing `\s*` never affects success
or the group. -/
def matchPol1At (t : List Char) : Option (List Char) := do
  let t1 ← stripLitCI ('P' :: 'o' :: 'l' :: 'a' :: 'r' :: 'i' :: 'z' :: 'a' ::
    'c' :: 'i' :: 'o' :: 'n' :: []) t
  let w := t1.takeWhile pyWs
  if w = [] then none else do
  let t2 ← stripLitCI ('f' :: 'i' :: 'n' :: 'a' :: 'l' :: ':' :: [])
    (t1.dropWhile pyWs)
  let t3 := t2.dropWhile pyWs
  let g ← numGroup t3
  pure g.1

/-- Matcher for `polarizacion\s*=\s*([0-9]+\.[0-9]+|[0-9]+)\s*;` (IGNORECASE)
at a fixed position.  After the group, `\s*` then `';'` must follow; the
backtracking alternatives inside the number group cannot rescue a failure
(shrinking a digit run leaves a digit where `';'` is required). -/
def matchPol2At (t : List Char) : Option (List Char) := do
  let t1 ← stripLitCI ('p' :: 'o' :: 'l' :: 'a' :: 'r' :: 'i' :: 'z' :: 'a' ::
    'c' :: 'i' :: 'o' :: 'n' :: []) t
  let t2 := t1.dropWhile pyWs
  match t2 with
  | '=' :: t3 => do
    let t4 := t3.dropWhile pyWs
    let g ← numGroup t4
    match (g.2.dropWhile pyWs) with
    | ';' :: _ => pure g.1
    | _ => none
  | _ => none

/-- Search for the first polarization-label match in the text. -/
def searchPol1 : List Char → Option (List Char) := reSearch matchPol1At

/-- Search for the first polarization-assignment match in the text. -/
def searchPol2 : List Char → Option (List Char) := reSearch matchPol2At

/-- Candidate resumption points for the backtracking of `\s*\n`: the pattern
consumes whitespace up to and including one of the `'\n'` characters of the
whitespace run `w` (greedy: the last `'\n'` is tried first); each candidate is
the text that remains for `(.+?)`. -/
def nlCandidates : List Char → List Char → List (List Char)
  | [], _ => []
  | c :: cs, rest =>
    nlCandidates cs rest ++ (if c = '\n' then [cs ++ rest] else [])

/-- First success over a list of candidates. -/
def firstSome {α β : Type} (f : α → Option β) : List α → Option β
  | [] => none
  | a :: rest =>
    match f a with
    | some b => some b
    | none => firstSome f rest

/-- Lazy `(.+?)` up to a terminator: consume at least one character and stop
at the earliest position where `isTerm` accepts the remaining suffix. -/
def scanContent (isTerm : List Char → Bool) : List Char → Option (List Char)
  | [] => none
  | c :: cs =>
    if isTerm cs then some [c]
    else (scanContent isTerm cs).map (fun g => c :: g)

/-- Terminator of the move-matrix patterns: `(?:\n\n|<next header>|===|\Z)`.
Every header alternative begins with `===`, so position-wise the alternation
is equivalent to: end of text, a blank line, or `===`. -/
def matTerm (suf : List Char) : Bool :=
  decide (suf = []) || startsWithLit ('\n' :: '\n' :: []) suf ||
    startsWithLit ('=' :: '=' :: '=' :: []) suf

/-- Matcher, at a fixed position, for
`<header> ===\s*\n(.+?)(?:\n\n|...|===|\Z)` (IGNORECASE, DOTALL): the header
literal, then `\s*\n` with its backtracking choices, then the lazy group. -/
def matchBlockAt (hdr : List Char) (isTerm : List Char → Bool)
    (t : List Char) : Option (List Char) :=
  (stripLitCI hdr t).bind (fun t1 =>
    firstSome (scanContent isTerm)
      (nlCandidates (t1.takeWhile pyWs) (t1.dropWhile pyWs)))

/-- Search for a labelled block anywhere in the text. -/
def searchBlock (hdr : List Char) (isTerm : List Char → Bool) :
    List Char → Option (List Char) :=
  reSearch (matchBlockAt hdr isTerm)

/-- The three `=== MATRIZ DE MOVIMIENTOS ... ===` header literals. -/
def hdrMat (k : Nat) : List Char :=
  if k = 0 then
    "=== MATRIZ DE MOVIMIENTOS (Resistencia Baja, k=1) ===".toList
  else if k = 1 then
    "=== MATRIZ DE MOVIMIENTOS (Resistencia Media, k=2) ===".toList
  else
    "=== MATRIZ DE MOVIMIENTOS (Resistencia Alta, k=3) ===".toList

/-- One matrix row: strip `[`/`]`, split on commas and whitespace runs
(`re.split(r',\s*|\s+', ...)` cuts at every comma and every whitespace
character; after dropping empty pieces the tokens are exactly the maximal
runs of other characters), parse every token as an integer.  `none` models
the `ValueError` that makes the code drop the row. -/
def rowParse (fila : List Char) : Option (List Int) :=
  let clean := fila.filter (fun c => !(c = '[' || c = ']'))
  let toks := ((List.splitOnP (fun c => c = ',' || pyWs c) clean).map
    pyStrip).filter (fun e => e ≠ [])
  toks.mapM pyIntOf

/-- The non-blank stripped lines of a matched block's stripped text. -/
def filasOf (g : List Char) : List (List Char) :=
  ((List.splitOn '\n' (pyStrip g)).map pyStrip).filter (fun f => f ≠ [])

/-- Rows of one tier's matrix from a matched block. -/
def matrixOfBlock (g : List Char) : List (List Int) :=
  (filasOf g).filterMap rowParse

/-- One tier of `x_matrices`: empty when the block is absent. -/
def tierMatrix (k : Nat) (t : List Char) : List (List Int) :=
  match searchBlock (hdrMat k) matTerm t with
  | some g => matrixOfBlock g
  | none => []

/-- Matcher for `Opinion\s+\d+:\s*(\d+)\s+personas` (IGNORECASE) at a fixed
position, returning the group and the text after the match. -/
def matchOpinionAt (t : List Char) : Option (List Char × List Char) := do
  let t1 ← stripLitCI "Opinion".toList t
  let w1 := t1.takeWhile pyWs
  if w1 = [] then none else do
  let t2 := t1.dropWhile pyWs
  let d1 := t2.takeWhile Char.isDigit
  if d1 = [] then none else do
  match t2.drop d1.length with
  | ':' :: t3 => do
    let t4 := t3.dropWhile pyWs
    let d2 := t4.takeWhile Char.isDigit
    if d2 = [] then none else do
    let t5 := t4.drop d2.length
    let w2 := t5.takeWhile pyWs
    if w2 = [] then none else do
    let t6 ← stripLitCI "personas".toList (t5.dropWhile pyWs)
    pure (d2, t6)
  | _ => none

/-- `re.findall`: repeated non-overlapping leftmost search.  The fuel is the
text length; each step either advances one position or consumes a whole
match (at least one character), so the fuel never runs out. -/
def findAllFuel {α : Type} (f : List Char → Option (α × List Char)) :
    Nat → List Char → List α
  | 0, _ => []
  | fuel + 1, t =>
    match f t with
    | some (g, rest) => g :: findAllFuel f fuel rest
    | none =>
      match t with
      | [] => []
      | _ :: tail => findAllFuel f fuel tail

/-- Terminator of the distribution-block pattern:
`(?:Mediana:|Costo total|Movimientos totales)` (IGNORECASE). -/
def distTerm (suf : List Char) : Bool :=
  (stripLitCI "Mediana:".toList suf).isSome ||
    (stripLitCI "Costo total".toList suf).isSome ||
    (stripLitCI "Movimientos totales".toList suf).isSome

/-- Matcher for the head of the distribution pattern
`Distribucion\s+final\s+de\s+personas\s+por\s+opinion:` followed by
`\s*\n(.+?)` up to `distTerm`. -/
def matchDistAt (t : List Char) : Option (List Char) := do
  let t1 ← stripLitCI "Distribucion".toList t
  if t1.takeWhile pyWs = [] then none else do
  let t2 ← stripLitCI "final".toList (t1.dropWhile pyWs)
  if t2.takeWhile pyWs = [] then none else do
  let t3 ← stripLitCI "de".toList (t2.dropWhile pyWs)
  if t3.takeWhile pyWs = [] then none else do
  let t4 ← stripLitCI "personas".toList (t3.dropWhile pyWs)
  if t4.takeWhile pyWs = [] then none else do
  let t5 ← stripLitCI "por".toList (t4.dropWhile pyWs)
  if t5.takeWhile pyWs = [] then none else do
  let t6 ← stripLitCI "opinion:".toList (t5.dropWhile pyWs)
  firstSome (scanContent distTerm)
    (nlCandidates (t6.takeWhile pyWs) (t6.dropWhile pyWs))

/-- The `q_final` extraction: the `Opinion <k>: <count> personas` counts of
the matched distribution block, in order of appearance.  The `int()` calls
cannot fail (the groups are digit runs), so the labelled error branch of the
source is unreachable. -/
def qFinalOf (t : List Char) : List Int :=
  match reSearch matchDistAt t with
  | some g =>
    (findAllFuel matchOpinionAt g.length g).map (fun d => (digitsVal d : Int))
  | none => []

/-- Embedding of `parse_minizinc_output` (parser.py lines 8-99): the
polarization string (label pattern first, assignment pattern as fallback,
sentinel when neither occurs), the final distribution, and the three move
matrices. -/
def parse_minizinc_output (t : List Char) :
    List Char × List Int × List (List (List Int)) :=
  let polarizacion :=
    match searchPol1 t with
    | some g => pyRstripSemi (pyStrip g)
    | none =>
      match searchPol2 t with
      | some g => pyRstripSemi (pyStrip g)
      | none => "Valor no encontrado".toList
  (polarizacion, qFinalOf t, [tierMatrix 0 t, tierMatrix 1 t, tierMatrix 2 t])

/-- **C7.** When neither the `Polarizacion final: <number>` pattern nor the
`polarizacion = <number>;` pattern occurs anywhere in the text, the parser
returns the sentinel string `Valor no encontrado` as the polarization.  The
embedding is a total function, so no input can make it raise. -/
theorem claim_C7 (t : List Char) (h1 : searchPol1 t = none)
    (h2 : searchPol2 t = none) :
    ∃ q xs, parse_minizinc_output t =
      ("Valor no encontrado".toList, q, xs) := by
  refine ⟨qFinalOf t, [tierMatrix 0 t, tierMatrix 1 t, tierMatrix 2 t], ?_⟩
  unfold parse_minizinc_output
  rw [h1, h2]

theorem claim_C7_witness :
    ∃ q xs, parse_minizinc_output "hola mundo".toList =
      ("Valor no encontrado".toList, q, xs) :=
  claim_C7 "hola mundo".toList (by decide) (by decide)

/-- **C8.** For each resistance tier: when the labelled
`=== MATRIZ DE MOVIMIENTOS ... ===` block is absent (the embedded search
fails), the result holds an empty matrix for that tier; when the block is
found, the tier's matrix consists of exactly the non-blank lines of the
block whose tokens all parse as integers (`rowParse`), in order — lines with
a non-integer token are silently omitted by the `filterMap`. -/
theorem claim_C8 (t : List Char) (k : Nat) (hk : k < 3) :
    (searchBlock (hdrMat k) matTerm t = none →
      (parse_minizinc_output t).2.2.getD k [] = []) ∧
    (∀ g, searchBlock (hdrMat k) matTerm t = some g →
      (parse_minizinc_output t).2.2.getD k [] =
        (filasOf g).filterMap rowParse) := by
  constructor
  · intro h
    interval_cases k <;>
      · show tierMatrix _ t = []
        rw [tierMatrix, h]
  · intro g h
    interval_cases k <;>
      · show tierMatrix _ t = (filasOf g).filterMap rowParse
        rw [tierMatrix, h]
        rfl

theorem claim_C8_witness :
    (parse_minizinc_output
      "=== MATRIZ DE MOVIMIENTOS (Resistencia Media, k=2) ===\n1, 2\nx y\n3 4\n".toList).2.2.getD
        0 [] = [] ∧
    (parse_minizinc_output
      "=== MATRIZ DE MOVIMIENTOS (Resistencia Media, k=2) ===\n1, 2\nx y\n3 4\n".toList).2.2.getD
        1 [] = (filasOf "1, 2\nx y\n3 4\n".toList).filterMap rowParse :=
  ⟨(claim_C8 "=== MATRIZ DE MOVIMIENTOS (Resistencia Media, k=2) ===\n1, 2\nx y\n3 4\n".toList
      0 (by decide)).1 (by decide),
   (claim_C8 "=== MATRIZ DE MOVIMIENTOS (Resistencia Media, k=2) ===\n1, 2\nx y\n3 4\n".toList
      1 (by decide)).2 "1, 2\nx y\n3 4\n".toList (by decide)⟩

/-! ### Embedding of `convert_txt_to_dzn` (convertir_individual.py lines
10-55) and `parse_dzn_input` (utilities/parser.py lines 102-152)

The converter's file read is modelled by taking the input text; its file
write by returning the produced DZN content.  `none` models the caught
exception path (`return False, ...`): the function reports a failure and no
output file is produced, since every list access and the `int()` call happen
before the file is opened. -/

/-- The non-blank stripped lines of the input text:
`[line.strip() for line in txt_file.readlines() if line.strip()]`. -/
def linesOf (text : List Char) : List (List Char) :=
  ((List.splitOn '\n' text).map pyStrip).filter (fun l => l ≠ [])

/-- Python list indexing with a possibly negative index. -/
def pyGetI {α : Type} (l : List α) (i : Int) : Option α :=
  if 0 ≤ i then l.get? i.toNat
  else if 0 ≤ i + l.length then l.get? (i + l.length).toNat else none

/-- Python `range(m)` for an `int` argument. -/
def pyRangeInt (m : Int) : List Int :=
  if m ≤ 0 then [] else (List.range m.toNat).map (fun i : Nat => (i : Int))

/-- Python `str.replace(',', ', ')`. -/
def replaceComma (l : List Char) : List Char :=
  l.flatMap (fun c => if c = ',' then [',', ' '] else [c])

/-- Decimal digit character of `d < 10`. -/
def digitChr (d : Nat) : Char :=
  if d = 0 then '0' else if d = 1 then '1' else if d = 2 then '2'
  else if d = 3 then '3' else if d = 4 then '4' else if d = 5 then '5'
  else if d = 6 then '6' else if d = 7 then '7' else if d = 8 then '8'
  else '9'

/-- Decimal representation of a natural number (Python `str`/f-string). -/
def natDigitsRepr (n : Nat) : List Char :=
  if n = 0 then ['0'] else ((Nat.digits 10 n).map digitChr).reverse

/-- Decimal representation of an integer (Python `f"{m}"`). -/
def pyIntRepr (i : Int) : List Char :=
  if i < 0 then '-' :: natDigitsRepr (-i).toNat else natDigitsRepr i.toNat

/-- The row separator `' |\n       '` of the `s` matrix (a space, a pipe, a
newline and seven spaces). -/
def sepS : List Char := " |\x0a       ".toList

/-- Embedding of `convert_txt_to_dzn`: from the input text to the content of
the written DZN file, `none` when the conversion reports a failure. -/
def convert_txt_to_dzn (text : List Char) : Option (List Char) :=
  let lines := linesOf text
  if lines.length < 7 then none
  else do
    let nStr ← lines.get? 0
    let mStr ← lines.get? 1
    let m ← pyIntOf mStr
    let pLine ← lines.get? 2
    let vLine ← lines.get? 3
    let matrixLines ← (pyRangeInt m).mapM (fun i => pyGetI lines (4 + i))
    let ct ← pyGetI lines (4 + m)
    let maxMovs ← pyGetI lines (5 + m)
    pure ("n = ".toList ++ nStr ++ ";\x0am = ".toList ++ pyIntRepr m ++
      ";\x0a\x0ap = [".toList ++ replaceComma pLine ++
      "];\x0a\x0av = [".toList ++ replaceComma vLine ++
      "];\x0a\x0as = [| ".toList ++ List.intercalate sepS matrixLines ++
      " |];\x0a\x0act = ".toList ++ ct ++
      ";\x0a\x0amaxMovs = ".toList ++ maxMovs ++ ";".toList)

/-- Model of Python's `float(str)` on the decimal forms this program
produces: surrounding whitespace, an optional sign, digits with an optional
fractional part (at least one digit in total).  The builtin accepts more
(exponents, `inf`, a leading or trailing dot), none of which appear in
well-formed inputs. -/
def pyFloatOf (l : List Char) : Option Rat :=
  let core : List Char → Option Rat := fun t =>
    let d1 := t.takeWhile Char.isDigit
    match t.drop d1.length with
    | [] => if d1 = [] then none else some (digitsVal d1 : Rat)
    | '.' :: r2 =>
      let d2 := r2.takeWhile Char.isDigit
      if r2.drop d2.length = [] ∧ (d1 ≠ [] ∨ d2 ≠ []) then
        some ((digitsVal d1 : Rat) + (digitsVal d2 : Rat) / (10 : Rat) ^ d2.length)
      else none
    | _ => none
  match pyStrip l with
  | '+' :: r => core r
  | '-' :: r => (core r).map (fun q => -q)
  | r => core r

/-- Python `str.strip('[]')`. -/
def pyStripBrk (l : List Char) : List Char :=
  ((l.dropWhile (fun c => c = '[' || c = ']')).reverse.dropWhile
    (fun c => c = '[' || c = ']')).reverse

/-- First index of a substring (`str.find`), `none` for `-1`. -/
def subFind (pat : List Char) : List Char → Option Nat
  | [] => if pat = [] then some 0 else none
  | c :: rest =>
    if startsWithLit pat (c :: rest) then some 0
    else (subFind pat rest).map (fun i => i + 1)

/-- Last index of a substring (`str.rfind`), `none` for `-1`. -/
def subRfind (pat : List Char) (l : List Char) : Option Nat :=
  (subFind pat.reverse l.reverse).map (fun i => l.length - pat.length - i)

/-- The dictionary built by `parse_dzn_input`; keys that were never assigned
stay `none`. -/
structure DznParams where
  n : Option Int
  m : Option Int
  p : Option (List Int)
  v : Option (List Rat)
  s : Option (List (List Int))
  ct : Option Rat
  maxMovs : Option Rat
  deriving DecidableEq, Repr

/-- Processing of one `;`-separated DZN statement (parser.py lines 116-150);
`none` models an uncaught `ValueError` from `int`/`float`. -/
def procLine (ps : DznParams) (line : List Char) : Option DznParams :=
  if '=' ∈ line then
    let i := line.findIdx (fun c => c = '=')
    let key := pyStrip (line.take i)
    let value := pyStrip (line.drop (i + 1))
    if key = "n".toList then do
      let x ← pyIntOf value
      pure { ps with n := some x }
    else if key = "m".toList then do
      let x ← pyIntOf value
      pure { ps with m := some x }
    else if key = "p".toList then do
      let xs ← (List.splitOn ',' (pyStripBrk value)).mapM
        (fun x => pyIntOf (pyStrip x))
      pure { ps with p := some xs }
    else if key = "v".toList then do
      let xs ← (List.splitOn ',' (pyStripBrk value)).mapM
        (fun x => pyFloatOf (pyStrip x))
      pure { ps with v := some xs }
    else if key = "s".toList then
      match subFind ('[' :: '|' :: []) value, subRfind ('|' :: ']' :: []) value with
      | some st, some en =>
        let mc := (value.drop (st + 2)).take (en - (st + 2))
        let filas := ((List.splitOn '|' mc).map pyStrip).filter (fun f => f ≠ [])
        do
          let sm ← filas.mapM (fun fila =>
            (((List.splitOn ',' fila).map pyStrip).filter (fun x => x ≠ [])).mapM
              pyIntOf)
          pure { ps with s := some sm }
      | _, _ => some ps
    else if key = "ct".toList then do
      let x ← pyFloatOf value
      pure { ps with ct := some x }
    else if key = "maxMovs".toList then do
      let x ← pyFloatOf value
      pure { ps with maxMovs := some x }
    else some ps
  else some ps

/-- Embedding of `parse_dzn_input` on the file's content: split on `;`,
keep non-blank statements, process each in order.  `none` models an uncaught
exception. -/
def parse_dzn_input (content : List Char) : Option DznParams :=
  (((List.splitOn ';' content).map pyStrip).filter (fun l => l ≠ [])).foldlM
    procLine ⟨none, none, none, none, none, none, none⟩

theorem opt_some_bind {α β : Type} (a : α) (f : α → Option β) :
    (some a >>= f) = f a := rfl

theorem opt_none_bind {α β : Type} (f : α → Option β) :
    ((none : Option α) >>= f) = none := rfl

theorem optMapM_ok {α β : Type} {l : List α} {f : α → Option β} {g : α → β}
    (h : ∀ a ∈ l, f a = some (g a)) : l.mapM f = some (l.map g) := by
  induction l with
  | nil => rfl
  | cons a rest ih =>
      rw [List.mapM_cons, h a (List.mem_cons_self a rest), opt_some_bind,
        ih (fun b hb => h b (List.mem_cons_of_mem a hb)), opt_some_bind]
      rfl

theorem optMapM_none {α β : Type} {l : List α} {f : α → Option β}
    (h : ∃ a ∈ l, f a = none) : l.mapM f = none := by
  induction l with
  | nil => simp at h
  | cons a rest ih =>
      rw [List.mapM_cons]
      obtain ⟨b, hb, hfb⟩ := h
      rcases List.mem_cons.1 hb with rfl | hb
      · rw [hfb]
        rfl
      · cases hfa : f a with
        | none => rfl
        | some w =>
            rw [opt_some_bind, ih ⟨b, hb, hfb⟩, opt_none_bind]

theorem pyGetI_nonneg {α : Type} (l : List α) (i : Int) (h : 0 ≤ i) :
    pyGetI l i = l.get? i.toNat := by
  rw [pyGetI, if_pos h]

/-- **C6.** The converter reports a conversion failure — it produces no
output file — whenever the input has fewer than 7 non-blank lines, and
whenever the declared `m` exceeds the number of matrix-row lines the layout
leaves available (`length - 6`): some list access `lines[4+i]`,
`lines[4+m]` or `lines[5+m]` is then out of range, and the raised
`IndexError` is caught and reported before the output file is opened. -/
theorem claim_C6 :
    (∀ text : List Char, (linesOf text).length < 7 →
      convert_txt_to_dzn text = none) ∧
    (∀ (text : List Char) (m : Int),
      pyIntOf ((linesOf text).getD 1 []) = some m → 0 ≤ m →
      7 ≤ (linesOf text).length →
      ((linesOf text).length : Int) - 6 < m →
      convert_txt_to_dzn text = none) := by
  constructor
  · intro text h
    rw [convert_txt_to_dzn]
    simp only [if_pos h]
  · intro text m hm hm0 hlen hgt
    rw [convert_txt_to_dzn]
    rw [if_neg (by omega)]
    have hg : ∀ k : Nat, k < (linesOf text).length →
        (linesOf text).get? k = some ((linesOf text).getD k []) := by
      intro k hk
      rw [List.get?_eq_getElem?, List.getElem?_eq_getElem hk,
        List.getD_eq_getElem _ _ hk]
    rw [hg 0 (by omega), opt_some_bind, hg 1 (by omega), opt_some_bind,
      hm, opt_some_bind, hg 2 (by omega), opt_some_bind,
      hg 3 (by omega), opt_some_bind]
    have hm0' : ¬ m ≤ 0 := by omega
    by_cases hcase : m ≤ ((linesOf text).length : Int) - 4
    · have hrows : (pyRangeInt m).mapM (fun i => pyGetI (linesOf text) (4 + i)) =
          some ((pyRangeInt m).map
            (fun i => (linesOf text).getD (4 + i).toNat [])) := by
        apply optMapM_ok
        intro a ha
        rw [pyRangeInt, if_neg hm0'] at ha
        obtain ⟨j, hj, rfl⟩ := List.mem_map.1 ha
        rw [List.mem_range] at hj
        have hj2 : (4 + (j : Int)).toNat < (linesOf text).length := by omega
        rw [pyGetI_nonneg _ _ (by omega), hg _ hj2]
      rw [hrows, opt_some_bind]
      by_cases h1 : 4 + m < ((linesOf text).length : Int)
      · rw [pyGetI_nonneg _ _ (by omega), hg (4 + m).toNat (by omega),
          opt_some_bind, pyGetI_nonneg _ _ (by omega)]
        have : (linesOf text).length ≤ (5 + m).toNat := by omega
        rw [List.get?_eq_getElem?, List.getElem?_eq_none this, opt_none_bind]
      · rw [pyGetI_nonneg _ _ (by omega)]
        have : (linesOf text).length ≤ (4 + m).toNat := by omega
        rw [List.get?_eq_getElem?, List.getElem?_eq_none this, opt_none_bind]
    · rw [optMapM_none ?_, opt_none_bind]
      refine ⟨(((linesOf text).length : Int) - 4), ?_, ?_⟩
      · rw [pyRangeInt, if_neg hm0']
        refine List.mem_map.2 ⟨(linesOf text).length - 4, ?_, by omega⟩
        rw [List.mem_range]
        omega
      · rw [pyGetI_nonneg _ _ (by omega)]
        have : (linesOf text).length ≤ (4 + (((linesOf text).length : Int) - 4)).toNat := by
          omega
        rw [List.get?_eq_getElem?, List.getElem?_eq_none this]

theorem claim_C6_witness :
    convert_txt_to_dzn "1\x0a2\x0a3".toList = none ∧
    convert_txt_to_dzn "10\x0a5\x0a1,2\x0a0.1,0.2\x0a1,1,1\x0a5\x0a5".toList = none :=
  ⟨claim_C6.1 "1\x0a2\x0a3".toList (by decide),
   claim_C6.2 "10\x0a5\x0a1,2\x0a0.1,0.2\x0a1,1,1\x0a5\x0a5".toList 5
     (by decide) (by decide) (by decide) (by decide)⟩

/-! ### String lemmas for the converter round trip -/

theorem head?_dropWhile {p : Char → Bool} :
    ∀ {l : List Char} {c : Char}, (l.dropWhile p).head? = some c → p c = false := by
  intro l
  induction l with
  | nil => intro c h; simp at h
  | cons a rest ih =>
      intro c h
      by_cases hpa : p a = true
      · rw [List.dropWhile_cons_of_pos hpa] at h
        exact ih h
      · rw [List.dropWhile_cons_of_neg hpa] at h
        rw [List.head?_cons] at h
        cases hb : p a
        · injection h with h
          rw [← h, hb]
        · exact absurd hb hpa

theorem pyStrip_head {l : List Char} {c : Char}
    (h : (pyStrip l).head? = some c) : pyWs c = false := by
  have hsuf := List.dropWhile_suffix (l := (l.dropWhile pyWs).reverse) pyWs
  obtain ⟨pre, hpre⟩ := hsuf
  have : (l.dropWhile pyWs) =
      ((l.dropWhile pyWs).reverse.dropWhile pyWs).reverse ++ pre.reverse := by
    rw [← List.reverse_append, hpre, List.reverse_reverse]
  have hh : (l.dropWhile pyWs).head? = some c := by
    rw [this, List.head?_append]
    rw [pyStrip] at h
    rw [h]
    rfl
  exact head?_dropWhile hh

theorem pyStrip_getLast {l : List Char} {c : Char}
    (h : (pyStrip l).getLast? = some c) : pyWs c = false := by
  rw [pyStrip, List.getLast?_eq_head?_reverse, List.reverse_reverse] at h
  exact head?_dropWhile h

theorem pyStrip_eq_self {l : List Char}
    (hh : ∀ c, l.head? = some c → pyWs c = false)
    (hl : ∀ c, l.getLast? = some c → pyWs c = false) : pyStrip l = l := by
  have h1 : l.dropWhile pyWs = l := by
    cases l with
    | nil => rfl
    | cons a rest =>
        exact List.dropWhile_cons_of_neg (by simp [hh a (by rfl)])
  rw [pyStrip, h1]
  have h2 : l.reverse.dropWhile pyWs = l.reverse := by
    cases hr : l.reverse with
    | nil => rfl
    | cons b tl =>
        refine List.dropWhile_cons_of_neg (by
          have : l.getLast? = some b := by
            rw [List.getLast?_eq_head?_reverse, hr]
            rfl
          simp [hl b this])
  rw [h2, List.reverse_reverse]

theorem pyStrip_idem (l : List Char) : pyStrip (pyStrip l) = pyStrip l :=
  pyStrip_eq_self (fun _ h => pyStrip_head h) (fun _ h => pyStrip_getLast h)

theorem dropWhile_append_all {pre l : List Char} {p : Char → Bool}
    (hpre : ∀ c ∈ pre, p c = true) :
    (pre ++ l).dropWhile p = l.dropWhile p := by
  induction pre with
  | nil => rfl
  | cons a rest ih =>
      rw [List.cons_append,
        List.dropWhile_cons_of_pos (hpre a (List.mem_cons_self a rest))]
      exact ih (fun c hc => hpre c (List.mem_cons_of_mem a hc))

theorem pyStrip_wrap (pre mid post : List Char)
    (hpre : ∀ c ∈ pre, pyWs c = true) (hpost : ∀ c ∈ post, pyWs c = true)
    (hne : mid ≠ [])
    (hh : ∀ c, mid.head? = some c → pyWs c = false)
    (hl : ∀ c, mid.getLast? = some c → pyWs c = false) :
    pyStrip (pre ++ mid ++ post) = mid := by
  rw [pyStrip, List.append_assoc, dropWhile_append_all hpre]
  have h1 : (mid ++ post).dropWhile pyWs = mid ++ post := by
    cases mid with
    | nil => exact absurd rfl hne
    | cons a rest =>
        rw [List.cons_append]
        exact List.dropWhile_cons_of_neg (by simp [hh a (by rfl)])
  rw [h1, List.reverse_append,
    dropWhile_append_all (by intro c hc; exact hpost c (by simpa using hc))]
  have h2 : mid.reverse.dropWhile pyWs = mid.reverse := by
    cases hr : mid.reverse with
    | nil => rfl
    | cons b tl =>
        refine List.dropWhile_cons_of_neg (by
          have : mid.getLast? = some b := by
            rw [List.getLast?_eq_head?_reverse, hr]
            rfl
          simp [hl b this])
  rw [h2, List.reverse_reverse]

theorem linesOf_strip {t : List Char} :
    ∀ l ∈ linesOf t, pyStrip l = l ∧ l ≠ [] := by
  intro l hl
  rw [linesOf, List.mem_filter] at hl
  obtain ⟨hmem, hne⟩ := hl
  obtain ⟨l0, -, rfl⟩ := List.mem_map.1 hmem
  exact ⟨pyStrip_idem l0, by simpa using hne⟩

theorem stripped_head {l : List Char} (h : pyStrip l = l) :
    ∀ c, l.head? = some c → pyWs c = false := by
  intro c hc
  exact pyStrip_head (by rw [h]; exact hc)

theorem stripped_getLast {l : List Char} (h : pyStrip l = l) :
    ∀ c, l.getLast? = some c → pyWs c = false := by
  intro c hc
  exact pyStrip_getLast (by rw [h]; exact hc)

/-- Characters allowed in a well-formed integer token of the input text. -/
def okIntChar (c : Char) : Prop :=
  c.isDigit = true ∨ c = '+' ∨ c = '-' ∨ c = ' '

instance (c : Char) : Decidable (okIntChar c) := by
  unfold okIntChar
  infer_instance

/-- A well-formed integer token: `int()` parses it, and its characters are
digits, signs or spaces (in particular no `, ; = [ ] |` or newline). -/
def okIntTok (tok : List Char) : Prop :=
  (pyIntOf tok).isSome = true ∧ ∀ c ∈ tok, okIntChar c

instance (tok : List Char) : Decidable (okIntTok tok) := by
  unfold okIntTok
  infer_instance

/-- Characters allowed in a well-formed float token of the input text. -/
def okFloatChar (c : Char) : Prop :=
  c.isDigit = true ∨ c = '.' ∨ c = '+' ∨ c = '-' ∨ c = ' '

instance (c : Char) : Decidable (okFloatChar c) := by
  unfold okFloatChar
  infer_instance

/-- A well-formed float token: `float()` parses it (in the modelled decimal
subset), and its characters are digits, a dot, signs or spaces. -/
def okFloatTok (tok : List Char) : Prop :=
  (pyFloatOf tok).isSome = true ∧ ∀ c ∈ tok, okFloatChar c

instance (tok : List Char) : Decidable (okFloatTok tok) := by
  unfold okFloatTok
  infer_instance

theorem okIntChar_excl {c : Char} (h : okIntChar c) :
    c ≠ ';' ∧ c ≠ '=' ∧ c ≠ ',' ∧ c ≠ '[' ∧ c ≠ ']' ∧ c ≠ '|' ∧
      c ≠ '\x0a' := by
  rcases h with h | rfl | rfl | rfl
  · refine ⟨?_, ?_, ?_, ?_, ?_, ?_, ?_⟩ <;>
      · rintro rfl
        simp at h
  all_goals exact ⟨by decide, by decide, by decide, by decide, by decide,
    by decide, by decide⟩

theorem okFloatChar_excl {c : Char} (h : okFloatChar c) :
    c ≠ ';' ∧ c ≠ '=' ∧ c ≠ ',' ∧ c ≠ '[' ∧ c ≠ ']' ∧ c ≠ '|' ∧
      c ≠ '\x0a' := by
  rcases h with h | rfl | rfl | rfl | rfl
  · refine ⟨?_, ?_, ?_, ?_, ?_, ?_, ?_⟩ <;>
      · rintro rfl
        simp at h
  all_goals exact ⟨by decide, by decide, by decide, by decide, by decide,
    by decide, by decide⟩

theorem pyIntOf_strip (l : List Char) : pyIntOf (pyStrip l) = pyIntOf l := by
  rw [pyIntOf, pyIntOf, pyStrip_idem]

theorem pyFloatOf_strip (l : List Char) :
    pyFloatOf (pyStrip l) = pyFloatOf l := by
  rw [pyFloatOf, pyFloatOf, pyStrip_idem]

theorem pyIntOf_empty : pyIntOf [] = none := by decide

theorem okIntTok_strip_ne {tok : List Char} (h : okIntTok tok) :
    pyStrip tok ≠ [] := by
  intro hemp
  have h2 := h.1
  rw [← pyIntOf_strip, hemp, pyIntOf_empty] at h2
  simp at h2

theorem pyFloatOf_empty : pyFloatOf [] = none := by decide

theorem okFloatTok_strip_ne {tok : List Char} (h : okFloatTok tok) :
    pyStrip tok ≠ [] := by
  intro hemp
  have h2 := h.1
  rw [← pyFloatOf_strip, hemp, pyFloatOf_empty] at h2
  simp at h2

theorem digitChr_isDigit (d : Nat) : (digitChr d).isDigit = true := by
  unfold digitChr
  split_ifs <;> decide

theorem charVal_digitChr {d : Nat} (h : d < 10) :
    (digitChr d).toNat - '0'.toNat = d := by
  interval_cases d <;> decide

theorem natDigitsRepr_ne (n : Nat) : natDigitsRepr n ≠ [] := by
  rw [natDigitsRepr]
  split_ifs with h
  · simp
  · simp [Nat.digits_ne_nil_iff_ne_zero.2 h]

theorem natDigitsRepr_digits (n : Nat) :
    ∀ c ∈ natDigitsRepr n, c.isDigit = true := by
  intro c hc
  rw [natDigitsRepr] at hc
  split_ifs at hc with h
  · rw [List.mem_singleton] at hc
    subst hc
    decide
  · rw [List.mem_reverse] at hc
    obtain ⟨d, -, rfl⟩ := List.mem_map.1 hc
    exact digitChr_isDigit d

theorem isDigit_not_ws {c : Char} (h : c.isDigit = true) : pyWs c = false := by
  cases hw : pyWs c
  · rfl
  · exfalso
    rw [pyWs] at hw
    simp only [Bool.or_eq_true, decide_eq_true_eq] at hw
    rcases hw with ((((rfl | rfl) | rfl) | rfl) | rfl) | rfl <;> exact absurd h (by decide)

theorem foldr_digits_ofDigits (D : List Nat) (h : ∀ d ∈ D, d < 10) :
    D.foldr (fun d acc => 10 * acc + ((digitChr d).toNat - '0'.toNat)) 0 =
      Nat.ofDigits 10 D := by
  induction D with
  | nil => rfl
  | cons d rest ih =>
      rw [List.foldr_cons, Nat.ofDigits_cons,
        charVal_digitChr (h d (List.mem_cons_self d rest)),
        ih (fun e he => h e (List.mem_cons_of_mem d he))]
      omega

theorem digitsVal_natDigitsRepr (n : Nat) : digitsVal (natDigitsRepr n) = n := by
  rw [natDigitsRepr]
  split_ifs with h
  · subst h
    decide
  · rw [digitsVal, List.foldl_reverse, List.foldr_map,
      foldr_digits_ofDigits _ (fun d hd => Nat.digits_lt_base (by norm_num) hd),
      Nat.ofDigits_digits]

theorem pyIntOf_digits {l ds : List Char} (h : pyStrip l = ds) (h2 : ds ≠ [])
    (h3 : ∀ c ∈ ds, c.isDigit = true) :
    pyIntOf l = some ((digitsVal ds : Nat) : Int) := by
  rw [pyIntOf, h]
  have hall : ds.all Char.isDigit = true := List.all_eq_true.2 h3
  match ds, h2, h3, hall with
  | c :: rest, _, h3, hall =>
    have hc : c.isDigit = true := h3 c (List.mem_cons_self c rest)
    have hcp : c ≠ '+' := by rintro rfl; exact absurd hc (by decide)
    have hcm : c ≠ '-' := by rintro rfl; exact absurd hc (by decide)
    split
    · rename_i ds1 heq
      injection heq with heq1 heq2
      exact absurd heq1 hcp
    · rename_i ds1 heq
      injection heq with heq1 heq2
      exact absurd heq1 hcm
    · rw [if_pos ⟨by simp, hall⟩]

theorem pyStrip_digits {ds : List Char} (h3 : ∀ c ∈ ds, c.isDigit = true) :
    pyStrip ds = ds := by
  apply pyStrip_eq_self
  · intro c hc
    exact isDigit_not_ws (h3 c (List.mem_of_mem_head? hc))
  · intro c hc
    have hm : c ∈ ds := by
      obtain ⟨hne, rfl⟩ := List.mem_getLast?_eq_getLast (l := ds) (x := c) hc
      exact List.getLast_mem hne
    exact isDigit_not_ws (h3 c hm)

theorem pyIntOf_pyIntRepr (m : Nat) :
    pyIntOf (pyIntRepr (m : Int)) = some (m : Int) := by
  rw [pyIntRepr, if_neg (by omega), Int.toNat_natCast]
  rw [pyIntOf_digits (pyStrip_digits (natDigitsRepr_digits m)) (natDigitsRepr_ne m)
    (natDigitsRepr_digits m), digitsVal_natDigitsRepr]

theorem pyStrip_cons_ws {a : Char} {l : List Char} (h : pyWs a = true) :
    pyStrip (a :: l) = pyStrip l := by
  rw [pyStrip, pyStrip, List.dropWhile_cons_of_pos h]

theorem dropWhile_head_neg {p : Char → Bool} {l : List Char}
    (h : ∀ x, l.head? = some x → p x = false) : l.dropWhile p = l := by
  cases l with
  | nil => rfl
  | cons a rest => exact List.dropWhile_cons_of_neg (by simp [h a rfl])

theorem pyStripBrk_wrap {mid : List Char}
    (hne : mid ≠ [])
    (hh : ∀ x, mid.head? = some x → (x = '[' || x = ']') = false)
    (hl : ∀ x, mid.getLast? = some x → (x = '[' || x = ']') = false) :
    pyStripBrk ('[' :: (mid ++ [']'])) = mid := by
  rw [pyStripBrk, List.dropWhile_cons_of_pos (by decide)]
  have h1 : (mid ++ [']']).dropWhile (fun c => c = '[' || c = ']') = mid ++ [']'] := by
    cases mid with
    | nil => exact absurd rfl hne
    | cons c rest =>
        apply dropWhile_head_neg
        intro x hx
        rw [List.cons_append, List.head?_cons, Option.some_inj] at hx
        subst hx
        exact hh c rfl
  rw [h1]
  have hrev : (mid ++ [']']).reverse = ']' :: mid.reverse := by
    rw [List.reverse_append]
    rfl
  rw [hrev, List.dropWhile_cons_of_pos (by decide),
    dropWhile_head_neg (fun x hx =>
      hl x (by rw [List.getLast?_eq_head?_reverse]; exact hx)),
    List.reverse_reverse]

theorem interc_single {α : Type} (sep a : List α) :
    List.intercalate sep [a] = a := by
  simp [List.intercalate]

theorem interc_cons₂ {α : Type} (sep a b : List α) (rest : List (List α)) :
    List.intercalate sep (a :: b :: rest) =
      a ++ sep ++ List.intercalate sep (b :: rest) := by
  simp [List.intercalate, List.intersperse_cons_cons, List.append_assoc]

theorem interc_first_append {α : Type} (sep y x : List α) (L : List (List α)) :
    List.intercalate sep ((y ++ x) :: L) = y ++ List.intercalate sep (x :: L) := by
  cases L with
  | nil => rw [interc_single, interc_single]
  | cons b rest => simp [interc_cons₂, List.append_assoc]

theorem optMapM_map {α β γ : Type} (l : List α) (g : α → β) (f : β → Option γ) :
    (l.map g).mapM f = l.mapM (fun a => f (g a)) := by
  induction l with
  | nil => rfl
  | cons a rest ih => rw [List.map_cons, List.mapM_cons, List.mapM_cons, ih]

theorem optMapM_congr {α β : Type} {l : List α} {f g : α → Option β}
    (h : ∀ a ∈ l, f a = g a) : l.mapM f = l.mapM g := by
  induction l with
  | nil => rfl
  | cons a rest ih =>
      rw [List.mapM_cons, List.mapM_cons, h a (List.mem_cons_self a rest),
        ih (fun b hb => h b (List.mem_cons_of_mem a hb))]

theorem get?_append_right_len {α : Type} (pre post : List α) (k : Nat) :
    (pre ++ post).get? (pre.length + k) = post.get? k := by
  induction pre with
  | nil => simp
  | cons a rest ih =>
      rw [List.cons_append, List.length_cons]
      have h : rest.length + 1 + k = (rest.length + k) + 1 := by omega
      rw [h]
      show (rest ++ post).get? (rest.length + k) = post.get? k
      exact ih

theorem mem_replaceComma {c : Char} {l : List Char} (h : c ∈ replaceComma l) :
    c ∈ l ∨ c = ' ' := by
  rw [replaceComma] at h
  obtain ⟨a, ha, hc⟩ := List.mem_flatMap.1 h
  by_cases hcomma : a = ','
  · rw [if_pos hcomma] at hc
    rw [List.mem_cons, List.mem_singleton] at hc
    rcases hc with rfl | rfl
    · exact Or.inl (hcomma ▸ ha)
    · exact Or.inr rfl
  · rw [if_neg hcomma, List.mem_singleton] at hc
    subst hc
    exact Or.inl ha

theorem replaceComma_append (a b : List Char) :
    replaceComma (a ++ b) = replaceComma a ++ replaceComma b := by
  rw [replaceComma, replaceComma, replaceComma, List.flatMap_append]

theorem replaceComma_no_comma {l : List Char} (h : ',' ∉ l) :
    replaceComma l = l := by
  induction l with
  | nil => rfl
  | cons a rest ih =>
      rw [replaceComma, List.flatMap_cons,
        if_neg (fun hc => h (by rw [← hc]; exact List.mem_cons_self a rest))]
      rw [replaceComma] at ih
      rw [ih (fun hm => h (List.mem_cons_of_mem a hm))]
      rfl

theorem mem_interc_comma {c : Char} {toks : List (List Char)}
    (h : c ∈ List.intercalate [','] toks) : c = ',' ∨ ∃ t ∈ toks, c ∈ t := by
  induction toks with
  | nil => simp [List.intercalate] at h
  | cons a rest ih =>
      cases rest with
      | nil =>
          rw [interc_single] at h
          exact Or.inr ⟨a, List.mem_cons_self a [], h⟩
      | cons b rest2 =>
          rw [interc_cons₂, List.append_assoc, List.mem_append] at h
          rcases h with h | h
          · exact Or.inr ⟨a, List.mem_cons_self a _, h⟩
          · rw [List.mem_append, List.mem_singleton] at h
            rcases h with h | h
            · exact Or.inl h
            · rcases ih h with h | ⟨t, ht, hc⟩
              · exact Or.inl h
              · exact Or.inr ⟨t, List.mem_cons_of_mem a ht, hc⟩

theorem range_mapM_get {α : Type} :
    ∀ (L pre post : List α),
    ((List.range L.length).map (fun i : Nat => (i : Int))).mapM
      (fun i => pyGetI (pre ++ (L ++ post)) ((pre.length : Int) + i)) = some L := by
  intro L
  induction L with
  | nil =>
      intro pre post
      rfl
  | cons a rest ih =>
      intro pre post
      rw [List.length_cons, List.range_succ_eq_map, List.map_cons, List.mapM_cons]
      have hhead : pyGetI (pre ++ ((a :: rest) ++ post))
          ((pre.length : Int) + (((0 : Nat) : Nat) : Int)) = some a := by
        rw [pyGetI, if_pos (by omega)]
        have h0 : ((pre.length : Int) + (((0 : Nat) : Nat) : Int)).toNat =
            pre.length + 0 := by omega
        rw [h0, get?_append_right_len]
        rfl
      rw [hhead, opt_some_bind]
      have htail : ((List.map Nat.succ (List.range rest.length)).map
          (fun i : Nat => (i : Int))).mapM
          (fun i => pyGetI (pre ++ ((a :: rest) ++ post)) ((pre.length : Int) + i)) =
          some rest := by
        rw [optMapM_map, optMapM_map]
        have h2 := ih (pre ++ [a]) post
        rw [optMapM_map] at h2
        refine Eq.trans (optMapM_congr ?_) h2
        intro i hi
        have e1 : pre ++ ((a :: rest) ++ post) = (pre ++ [a]) ++ (rest ++ post) := by
          simp
        rw [e1]
        congr 1
        simp only [List.length_append, List.length_singleton]
        push_cast
        omega
      rw [htail, opt_some_bind]
      rfl

theorem procLine_n (ps : DznParams) {ln : List Char} {nV : Int}
    (hstrip : pyStrip ln = ln) (hval : pyIntOf ln = some nV) :
    procLine ps ("n = ".toList ++ ln) = some { ps with n := some nV } := by
  show procLine ps ('n' :: ' ' :: '=' :: ' ' :: ln) = some { ps with n := some nV }
  rw [procLine,
    if_pos (List.mem_cons_of_mem _ (List.mem_cons_of_mem _ (List.mem_cons_self '=' _)))]
  dsimp only
  have hidx : List.findIdx (fun c => c = '=') ('n' :: ' ' :: '=' :: ' ' :: ln) = 2 := rfl
  rw [hidx]
  have htake : pyStrip (('n' :: ' ' :: '=' :: ' ' :: ln).take 2) = 'n' :: [] := rfl
  rw [htake, if_pos (show ('n' :: ([] : List Char)) = "n".toList from rfl)]
  have hdrop : pyStrip (('n' :: ' ' :: '=' :: ' ' :: ln).drop (2 + 1)) = ln := by
    show pyStrip (' ' :: ln) = ln
    rw [pyStrip_cons_ws (by decide), hstrip]
  rw [hdrop, hval, opt_some_bind]
  rfl

theorem procLine_m (ps : DznParams) {lm : List Char} {mV : Int}
    (hstrip : pyStrip lm = lm) (hval : pyIntOf lm = some mV) :
    procLine ps ("m = ".toList ++ lm) = some { ps with m := some mV } := by
  show procLine ps ('m' :: ' ' :: '=' :: ' ' :: lm) = some { ps with m := some mV }
  rw [procLine,
    if_pos (List.mem_cons_of_mem _ (List.mem_cons_of_mem _ (List.mem_cons_self '=' _)))]
  dsimp only
  have hidx : List.findIdx (fun c => c = '=') ('m' :: ' ' :: '=' :: ' ' :: lm) = 2 := rfl
  rw [hidx]
  have htake : pyStrip (('m' :: ' ' :: '=' :: ' ' :: lm).take 2) = 'm' :: [] := rfl
  rw [htake, if_neg (by decide), if_pos (show ('m' :: ([] : List Char)) = "m".toList from rfl)]
  have hdrop : pyStrip (('m' :: ' ' :: '=' :: ' ' :: lm).drop (2 + 1)) = lm := by
    show pyStrip (' ' :: lm) = lm
    rw [pyStrip_cons_ws (by decide), hstrip]
  rw [hdrop, hval, opt_some_bind]
  rfl

theorem procLine_ct (ps : DznParams) {lct : List Char} {cV : Rat}
    (hstrip : pyStrip lct = lct) (hval : pyFloatOf lct = some cV) :
    procLine ps ("ct = ".toList ++ lct) = some { ps with ct := some cV } := by
  show procLine ps ('c' :: 't' :: ' ' :: '=' :: ' ' :: lct) = some { ps with ct := some cV }
  rw [procLine,
    if_pos (List.mem_cons_of_mem _ (List.mem_cons_of_mem _
      (List.mem_cons_of_mem _ (List.mem_cons_self '=' _))))]
  dsimp only
  have hidx : List.findIdx (fun c => c = '=')
      ('c' :: 't' :: ' ' :: '=' :: ' ' :: lct) = 3 := rfl
  rw [hidx]
  have htake : pyStrip (('c' :: 't' :: ' ' :: '=' :: ' ' :: lct).take 3) =
      'c' :: 't' :: [] := rfl
  rw [htake, if_neg (by decide), if_neg (by decide), if_neg (by decide),
    if_neg (by decide), if_neg (by decide),
    if_pos (show ('c' :: 't' :: ([] : List Char)) = "ct".toList from rfl)]
  have hdrop : pyStrip (('c' :: 't' :: ' ' :: '=' :: ' ' :: lct).drop (3 + 1)) = lct := by
    show pyStrip (' ' :: lct) = lct
    rw [pyStrip_cons_ws (by decide), hstrip]
  rw [hdrop, hval, opt_some_bind]
  rfl

theorem procLine_maxMovs (ps : DznParams) {lmm : List Char} {tV : Rat}
    (hstrip : pyStrip lmm = lmm) (hval : pyFloatOf lmm = some tV) :
    procLine ps ("maxMovs = ".toList ++ lmm) = some { ps with maxMovs := some tV } := by
  show procLine ps
    ('m' :: 'a' :: 'x' :: 'M' :: 'o' :: 'v' :: 's' :: ' ' :: '=' :: ' ' :: lmm) =
      some { ps with maxMovs := some tV }
  rw [procLine,
    if_pos (List.mem_cons_of_mem _ (List.mem_cons_of_mem _ (List.mem_cons_of_mem _
      (List.mem_cons_of_mem _ (List.mem_cons_of_mem _ (List.mem_cons_of_mem _
        (List.mem_cons_of_mem _ (List.mem_cons_of_mem _ (List.mem_cons_self '=' _)))))))))]
  dsimp only
  have hidx : List.findIdx (fun c => c = '=')
      ('m' :: 'a' :: 'x' :: 'M' :: 'o' :: 'v' :: 's' :: ' ' :: '=' :: ' ' :: lmm) = 8 := rfl
  rw [hidx]
  have htake : pyStrip
      (('m' :: 'a' :: 'x' :: 'M' :: 'o' :: 'v' :: 's' :: ' ' :: '=' :: ' ' :: lmm).take 8) =
      'm' :: 'a' :: 'x' :: 'M' :: 'o' :: 'v' :: 's' :: [] := rfl
  rw [htake, if_neg (by decide), if_neg (by decide), if_neg (by decide),
    if_neg (by decide), if_neg (by decide), if_neg (by decide),
    if_pos (show ('m' :: 'a' :: 'x' :: 'M' :: 'o' :: 'v' :: 's' :: ([] : List Char)) =
      "maxMovs".toList from rfl)]
  have hdrop : pyStrip
      (('m' :: 'a' :: 'x' :: 'M' :: 'o' :: 'v' :: 's' :: ' ' :: '=' :: ' ' :: lmm).drop
        (8 + 1)) = lmm := by
    show pyStrip (' ' :: lmm) = lmm
    rw [pyStrip_cons_ws (by decide), hstrip]
  rw [hdrop, hval, opt_some_bind]
  rfl

theorem procLine_p (ps : DznParams) {rc : List Char} {pV : List Int}
    (hne : rc ≠ [])
    (hh : ∀ x, rc.head? = some x → (x = '[' || x = ']') = false)
    (hl : ∀ x, rc.getLast? = some x → (x = '[' || x = ']') = false)
    (hmapM : (List.splitOn ',' rc).mapM (fun x => pyIntOf (pyStrip x)) = some pV) :
    procLine ps ("p = [".toList ++ rc ++ "]".toList) = some { ps with p := some pV } := by
  show procLine ps ('p' :: ' ' :: '=' :: ' ' :: '[' :: (rc ++ [']'])) =
    some { ps with p := some pV }
  rw [procLine,
    if_pos (List.mem_cons_of_mem _ (List.mem_cons_of_mem _ (List.mem_cons_self '=' _)))]
  dsimp only
  have hidx : List.findIdx (fun c => c = '=')
      ('p' :: ' ' :: '=' :: ' ' :: '[' :: (rc ++ [']'])) = 2 := rfl
  rw [hidx]
  have htake : pyStrip (('p' :: ' ' :: '=' :: ' ' :: '[' :: (rc ++ [']'])).take 2) =
      'p' :: [] := rfl
  rw [htake, if_neg (by decide), if_neg (by decide),
    if_pos (show ('p' :: ([] : List Char)) = "p".toList from rfl)]
  have hdrop : pyStrip (('p' :: ' ' :: '=' :: ' ' :: '[' :: (rc ++ [']'])).drop (2 + 1)) =
      '[' :: (rc ++ [']']) := by
    show pyStrip (' ' :: '[' :: (rc ++ [']'])) = '[' :: (rc ++ [']'])
    rw [pyStrip_cons_ws (by decide)]
    apply pyStrip_eq_self
    · intro x hx
      rw [List.head?_cons, Option.some_inj] at hx
      subst hx
      decide
    · intro x hx
      rw [show ('[' :: (rc ++ [']'])) = (('[' :: rc) ++ [']']) from rfl,
        List.getLast?_append_of_ne_nil _ (by simp),
        show ([']'] : List Char).getLast? = some ']' from rfl, Option.some_inj] at hx
      subst hx
      decide
  rw [hdrop, pyStripBrk_wrap hne hh hl, hmapM, opt_some_bind]
  rfl

theorem procLine_v (ps : DznParams) {rc : List Char} {vV : List Rat}
    (hne : rc ≠ [])
    (hh : ∀ x, rc.head? = some x → (x = '[' || x = ']') = false)
    (hl : ∀ x, rc.getLast? = some x → (x = '[' || x = ']') = false)
    (hmapM : (List.splitOn ',' rc).mapM (fun x => pyFloatOf (pyStrip x)) = some vV) :
    procLine ps ("v = [".toList ++ rc ++ "]".toList) = some { ps with v := some vV } := by
  show procLine ps ('v' :: ' ' :: '=' :: ' ' :: '[' :: (rc ++ [']'])) =
    some { ps with v := some vV }
  rw [procLine,
    if_pos (List.mem_cons_of_mem _ (List.mem_cons_of_mem _ (List.mem_cons_self '=' _)))]
  dsimp only
  have hidx : List.findIdx (fun c => c = '=')
      ('v' :: ' ' :: '=' :: ' ' :: '[' :: (rc ++ [']'])) = 2 := rfl
  rw [hidx]
  have htake : pyStrip (('v' :: ' ' :: '=' :: ' ' :: '[' :: (rc ++ [']'])).take 2) =
      'v' :: [] := rfl
  rw [htake, if_neg (by decide), if_neg (by decide), if_neg (by decide),
    if_pos (show ('v' :: ([] : List Char)) = "v".toList from rfl)]
  have hdrop : pyStrip (('v' :: ' ' :: '=' :: ' ' :: '[' :: (rc ++ [']'])).drop (2 + 1)) =
      '[' :: (rc ++ [']']) := by
    show pyStrip (' ' :: '[' :: (rc ++ [']'])) = '[' :: (rc ++ [']'])
    rw [pyStrip_cons_ws (by decide)]
    apply pyStrip_eq_self
    · intro x hx
      rw [List.head?_cons, Option.some_inj] at hx
      subst hx
      decide
    · intro x hx
      rw [show ('[' :: (rc ++ [']'])) = (('[' :: rc) ++ [']']) from rfl,
        List.getLast?_append_of_ne_nil _ (by simp),
        show ([']'] : List Char).getLast? = some ']' from rfl, Option.some_inj] at hx
      subst hx
      decide
  rw [hdrop, pyStripBrk_wrap hne hh hl, hmapM, opt_some_bind]
  rfl

theorem procLine_s (ps : DznParams) {inter : List Char} {rows : List (List Char)}
    {sV : List (List Int)}
    (hsplit : ((List.splitOn '|' (' ' :: (inter ++ [' ']))).map pyStrip).filter
      (fun f => f ≠ []) = rows)
    (hmapM : rows.mapM (fun fila =>
      (((List.splitOn ',' fila).map pyStrip).filter (fun x => x ≠ [])).mapM pyIntOf) =
      some sV) :
    procLine ps ("s = [| ".toList ++ inter ++ " |]".toList) =
      some { ps with s := some sV } := by
  show procLine ps
      ('s' :: ' ' :: '=' :: ' ' :: '[' :: '|' :: ' ' :: (inter ++ [' ', '|', ']'])) =
    some { ps with s := some sV }
  rw [procLine,
    if_pos (List.mem_cons_of_mem _ (List.mem_cons_of_mem _ (List.mem_cons_self '=' _)))]
  dsimp only
  have hidx : List.findIdx (fun c => c = '=')
      ('s' :: ' ' :: '=' :: ' ' :: '[' :: '|' :: ' ' :: (inter ++ [' ', '|', ']'])) =
      2 := rfl
  rw [hidx]
  have htake : pyStrip
      (('s' :: ' ' :: '=' :: ' ' :: '[' :: '|' :: ' ' :: (inter ++ [' ', '|', ']'])).take 2) =
      's' :: [] := rfl
  rw [htake, if_neg (by decide), if_neg (by decide), if_neg (by decide),
    if_neg (by decide), if_pos (show ('s' :: ([] : List Char)) = "s".toList from rfl)]
  have hdrop : pyStrip
      (('s' :: ' ' :: '=' :: ' ' :: '[' :: '|' :: ' ' ::
        (inter ++ [' ', '|', ']'])).drop (2 + 1)) =
      '[' :: '|' :: ' ' :: (inter ++ [' ', '|', ']']) := by
    show pyStrip (' ' :: '[' :: '|' :: ' ' :: (inter ++ [' ', '|', ']'])) =
      '[' :: '|' :: ' ' :: (inter ++ [' ', '|', ']'])
    rw [pyStrip_cons_ws (by decide)]
    apply pyStrip_eq_self
    · intro x hx
      rw [List.head?_cons, Option.some_inj] at hx
      subst hx
      decide
    · intro x hx
      rw [show ('[' :: '|' :: ' ' :: (inter ++ [' ', '|', ']'])) =
          (('[' :: '|' :: ' ' :: inter) ++ [' ', '|', ']']) from rfl,
        List.getLast?_append_of_ne_nil _ (by simp),
        show ([' ', '|', ']'] : List Char).getLast? = some ']' from rfl,
          Option.some_inj] at hx
      subst hx
      decide
  rw [hdrop]
  have hsf : subFind ('[' :: '|' :: [])
      ('[' :: '|' :: ' ' :: (inter ++ [' ', '|', ']'])) = some 0 := rfl
  have hsr : subRfind ('|' :: ']' :: [])
      ('[' :: '|' :: ' ' :: (inter ++ [' ', '|', ']'])) = some (inter.length + 4) := by
    have hrev : ('[' :: '|' :: ' ' :: (inter ++ [' ', '|', ']'])).reverse =
        ']' :: '|' :: ' ' :: (inter.reverse ++ [' ', '|', '[']) := by
      simp
    have h1 : subFind (('|' :: ']' :: []) : List Char).reverse
        (']' :: '|' :: ' ' :: (inter.reverse ++ [' ', '|', '['])) = some 0 := rfl
    rw [subRfind, hrev, h1, Option.map_some']
    congr 1
    simp only [List.length_cons, List.length_append, List.length_nil]
    omega
  rw [hsf, hsr]
  dsimp only
  have hmc : ((('[' :: '|' :: ' ' :: (inter ++ [' ', '|', ']'])).drop (0 + 2)).take
      (inter.length + 4 - (0 + 2))) = ' ' :: (inter ++ [' ']) := by
    show ((' ' :: (inter ++ [' ', '|', ']'])).take (inter.length + 4 - (0 + 2))) =
      ' ' :: (inter ++ [' '])
    have h2 : inter.length + 4 - (0 + 2) = (' ' :: (inter ++ [' '])).length := by
      simp only [List.length_cons, List.length_append, List.length_nil]
      omega
    rw [h2, show (' ' :: (inter ++ [' ', '|', ']'])) =
        ((' ' :: (inter ++ [' '])) ++ ['|', ']']) from by simp, List.take_left]
  rw [hmc, hsplit, hmapM, opt_some_bind]
  rfl

theorem pyIntRepr_natCast (m : Nat) : pyIntRepr (m : Int) = natDigitsRepr m := by
  rw [pyIntRepr, if_neg (by omega), Int.toNat_natCast]

theorem pyRangeInt_natCast (m : Nat) (h : 1 ≤ m) :
    pyRangeInt (m : Int) = (List.range m).map (fun i : Nat => (i : Int)) := by
  rw [pyRangeInt, if_neg (by omega), Int.toNat_natCast]

theorem pyIntOf_cons_ws {a : Char} (h : pyWs a = true) (t : List Char) :
    pyIntOf (a :: t) = pyIntOf t := by
  rw [pyIntOf, pyIntOf, pyStrip_cons_ws h]

theorem pyFloatOf_cons_ws {a : Char} (h : pyWs a = true) (t : List Char) :
    pyFloatOf (a :: t) = pyFloatOf t := by
  rw [pyFloatOf, pyFloatOf, pyStrip_cons_ws h]

theorem okIntTok_ne {t : List Char} (h : okIntTok t) : t ≠ [] := by
  intro he
  exact okIntTok_strip_ne h (by rw [he]; rfl)

theorem okFloatTok_ne {t : List Char} (h : okFloatTok t) : t ≠ [] := by
  intro he
  exact okFloatTok_strip_ne h (by rw [he]; rfl)

theorem interc_ne_nil {t0 : List Char} (sep : List Char) (L : List (List Char))
    (h : t0 ≠ []) : List.intercalate sep (t0 :: L) ≠ [] := by
  cases L with
  | nil => rw [interc_single]; exact h
  | cons b rest =>
      rw [interc_cons₂]
      intro he
      rcases List.append_eq_nil.1 he with ⟨he2, -⟩
      exact h (List.append_eq_nil.1 he2).1

theorem mem_of_getLast? {α : Type} {l : List α} {x : α} (h : l.getLast? = some x) :
    x ∈ l := by
  obtain ⟨hne, rfl⟩ := List.mem_getLast?_eq_getLast (l := l) (x := x) h
  exact List.getLast_mem hne

theorem getLast_digits_not_ws {l : List Char} (hd : ∀ c ∈ l, c.isDigit = true) :
    ∀ x, l.getLast? = some x → pyWs x = false :=
  fun x hx => isDigit_not_ws (hd x (mem_of_getLast? hx))

theorem interc_int_chars {toks : List (List Char)} (h : ∀ t ∈ toks, okIntTok t) :
    ∀ x ∈ List.intercalate [','] toks, x = ',' ∨ okIntChar x := by
  intro x hx
  rcases mem_interc_comma hx with hc | ⟨t, ht, hc⟩
  · exact Or.inl hc
  · exact Or.inr ((h t ht).2 x hc)

theorem interc_float_chars {toks : List (List Char)} (h : ∀ t ∈ toks, okFloatTok t) :
    ∀ x ∈ List.intercalate [','] toks, x = ',' ∨ okFloatChar x := by
  intro x hx
  rcases mem_interc_comma hx with hc | ⟨t, ht, hc⟩
  · exact Or.inl hc
  · exact Or.inr ((h t ht).2 x hc)

theorem okIntTok_no_comma {toks : List (List Char)} (h : ∀ t ∈ toks, okIntTok t) :
    ∀ t ∈ toks, ',' ∉ t := by
  intro t ht hc
  exact (okIntChar_excl ((h t ht).2 ',' hc)).2.2.1 rfl

theorem okFloatTok_no_comma {toks : List (List Char)} (h : ∀ t ∈ toks, okFloatTok t) :
    ∀ t ∈ toks, ',' ∉ t := by
  intro t ht hc
  exact (okFloatChar_excl ((h t ht).2 ',' hc)).2.2.1 rfl

theorem replaceComma_interc (rest : List (List Char)) :
    ∀ t0 : List Char, (∀ t ∈ t0 :: rest, ',' ∉ t) →
    replaceComma (List.intercalate [','] (t0 :: rest)) =
      List.intercalate [','] (t0 :: rest.map (fun t => ' ' :: t)) := by
  induction rest with
  | nil =>
      intro t0 hall
      rw [List.map_nil, interc_single,
        replaceComma_no_comma (hall t0 (List.mem_cons_self t0 []))]
  | cons b rest2 ih =>
      intro t0 hall
      rw [interc_cons₂, replaceComma_append, replaceComma_append,
        replaceComma_no_comma (hall t0 (List.mem_cons_self t0 _)),
        show replaceComma [','] = [',', ' '] from rfl,
        ih b (fun t ht => hall t (List.mem_cons_of_mem t0 ht))]
      simp only [List.map_cons, interc_cons₂]
      rw [show ((' ' :: b) : List Char) = [' '] ++ b from rfl, interc_first_append]
      simp [List.append_assoc]

theorem interSep_pipe :
    ∀ (rest : List (List Char)) (r : List Char),
    List.intercalate sepS (r :: rest) ++ [' '] =
      List.intercalate ['|'] ((r ++ [' ']) ::
        rest.map (fun t => ('\x0a' :: "       ".toList) ++ (t ++ [' ']))) := by
  intro rest
  induction rest with
  | nil =>
      intro r
      rw [List.map_nil, interc_single, interc_single]
  | cons b rest2 ih =>
      intro r
      simp only [List.map_cons]
      rw [interc_cons₂, interc_cons₂, interc_first_append, ← ih b,
        show sepS = [' '] ++ (['|'] ++ ('\x0a' :: "       ".toList)) from rfl]
      simp [List.append_assoc]

theorem mc_pieces (r : List Char) (rest : List (List Char)) :
    ' ' :: (List.intercalate sepS (r :: rest) ++ [' ']) =
      List.intercalate ['|'] (([' '] ++ (r ++ [' '])) ::
        rest.map (fun t => ('\x0a' :: "       ".toList) ++ (t ++ [' ']))) := by
  rw [interc_first_append, ← interSep_pipe]
  rfl

theorem splitRC_mapM_int (t0 : List Char) (rest : List (List Char)) :
    (t0 :: rest.map (fun t => ' ' :: t)).mapM (fun x => pyIntOf (pyStrip x)) =
      (t0 :: rest).mapM pyIntOf := by
  have htail : (rest.map (fun t => ' ' :: t)).mapM (fun x => pyIntOf (pyStrip x)) =
      rest.mapM pyIntOf := by
    rw [optMapM_map]
    apply optMapM_congr
    intro t ht
    rw [pyIntOf_strip, pyIntOf_cons_ws (by decide)]
  simp only [List.mapM_cons]
  rw [pyIntOf_strip, htail]

theorem splitRC_mapM_float (t0 : List Char) (rest : List (List Char)) :
    (t0 :: rest.map (fun t => ' ' :: t)).mapM (fun x => pyFloatOf (pyStrip x)) =
      (t0 :: rest).mapM pyFloatOf := by
  have htail : (rest.map (fun t => ' ' :: t)).mapM (fun x => pyFloatOf (pyStrip x)) =
      rest.mapM pyFloatOf := by
    rw [optMapM_map]
    apply optMapM_congr
    intro t ht
    rw [pyFloatOf_strip, pyFloatOf_cons_ws (by decide)]
  simp only [List.mapM_cons]
  rw [pyFloatOf_strip, htail]

theorem mem_interc {α : Type} {x : α} {sep : List α} {L : List (List α)}
    (h : x ∈ List.intercalate sep L) : x ∈ sep ∨ ∃ t ∈ L, x ∈ t := by
  induction L with
  | nil => simp [List.intercalate] at h
  | cons a rest ih =>
      cases rest with
      | nil =>
          rw [interc_single] at h
          exact Or.inr ⟨a, List.mem_cons_self a [], h⟩
      | cons b rest2 =>
          rw [interc_cons₂, List.append_assoc, List.mem_append] at h
          rcases h with h | h
          · exact Or.inr ⟨a, List.mem_cons_self a _, h⟩
          · rw [List.mem_append] at h
            rcases h with h | h
            · exact Or.inl h
            · rcases ih h with h | ⟨t, ht, hc⟩
              · exact Or.inl h
              · exact Or.inr ⟨t, List.mem_cons_of_mem a ht, hc⟩

theorem rc_chars_int {t0 : List Char} {rest : List (List Char)}
    (h : ∀ t ∈ t0 :: rest, okIntTok t) :
    ∀ x ∈ List.intercalate [','] (t0 :: rest.map (fun t => ' ' :: t)),
      x = ',' ∨ x = ' ' ∨ okIntChar x := by
  intro x hx
  rcases mem_interc_comma hx with hc | ⟨t, ht, hc⟩
  · exact Or.inl hc
  · rcases List.mem_cons.1 ht with rfl | ht2
    · exact Or.inr (Or.inr ((h t (List.mem_cons_self _ _)).2 x hc))
    · obtain ⟨u, hu, rfl⟩ := List.mem_map.1 ht2
      rcases List.mem_cons.1 hc with rfl | hc2
      · exact Or.inr (Or.inl rfl)
      · exact Or.inr (Or.inr ((h u (List.mem_cons_of_mem _ hu)).2 x hc2))

theorem rc_chars_float {t0 : List Char} {rest : List (List Char)}
    (h : ∀ t ∈ t0 :: rest, okFloatTok t) :
    ∀ x ∈ List.intercalate [','] (t0 :: rest.map (fun t => ' ' :: t)),
      x = ',' ∨ x = ' ' ∨ okFloatChar x := by
  intro x hx
  rcases mem_interc_comma hx with hc | ⟨t, ht, hc⟩
  · exact Or.inl hc
  · rcases List.mem_cons.1 ht with rfl | ht2
    · exact Or.inr (Or.inr ((h t (List.mem_cons_self _ _)).2 x hc))
    · obtain ⟨u, hu, rfl⟩ := List.mem_map.1 ht2
      rcases List.mem_cons.1 hc with rfl | hc2
      · exact Or.inr (Or.inl rfl)
      · exact Or.inr (Or.inr ((h u (List.mem_cons_of_mem _ hu)).2 x hc2))

theorem chars3_int {x : Char} (hx : x = ',' ∨ x = ' ' ∨ okIntChar x) :
    x ≠ ';' ∧ (x = '[' || x = ']') = false := by
  rcases hx with rfl | rfl | h
  · exact ⟨by decide, by decide⟩
  · exact ⟨by decide, by decide⟩
  · obtain ⟨e1, e2, e3, e4, e5, e6, e7⟩ := okIntChar_excl h
    exact ⟨e1, by simp [e4, e5]⟩

theorem chars3_float {x : Char} (hx : x = ',' ∨ x = ' ' ∨ okFloatChar x) :
    x ≠ ';' ∧ (x = '[' || x = ']') = false := by
  rcases hx with rfl | rfl | h
  · exact ⟨by decide, by decide⟩
  · exact ⟨by decide, by decide⟩
  · obtain ⟨e1, e2, e3, e4, e5, e6, e7⟩ := okFloatChar_excl h
    exact ⟨e1, by simp [e4, e5]⟩

theorem pipe_notin_row {r : List (List Char)} (h : ∀ t ∈ r, okIntTok t) :
    '|' ∉ List.intercalate [','] r := by
  intro hc
  rcases mem_interc_comma hc with he | ⟨t, ht, he⟩
  · exact absurd he (by decide)
  · exact (okIntChar_excl ((h t ht).2 '|' he)).2.2.2.2.2.1 rfl

theorem semi_ne_of_patch {r : List (List Char)} (h : ∀ t ∈ r, okIntTok t) :
    ∀ x ∈ List.intercalate [','] r, x ≠ ';' := by
  intro x hx
  rcases interc_int_chars h x hx with rfl | he
  · decide
  · exact (okIntChar_excl he).1

theorem ws1 : ∀ c ∈ ([' '] : List Char), pyWs c = true := by
  intro c hc
  rw [List.mem_singleton] at hc
  subst hc
  rfl

theorem nl7_ws : ∀ c ∈ ('\x0a' :: "       ".toList : List Char), pyWs c = true := by
  intro c hc
  have h2 : c ∈ ('\x0a' :: ' ' :: ' ' :: ' ' :: ' ' :: ' ' :: ' ' :: ' ' :: [] :
      List Char) := hc
  fin_cases h2 <;> decide

theorem pyStrip_row_wrap {pre : List Char} (hpre : ∀ c ∈ pre, pyWs c = true)
    {r : List Char} (hr : pyStrip r = r) (hrne : r ≠ []) :
    pyStrip (pre ++ (r ++ [' '])) = r := by
  rw [show pre ++ (r ++ [' ']) = pre ++ r ++ [' '] from by simp]
  exact pyStrip_wrap pre r [' '] hpre ws1 hrne (stripped_head hr) (stripped_getLast hr)

theorem foldlM_procLine_step (ps ps' : DznParams) (a : List Char)
    (l : List (List Char)) (h : procLine ps a = some ps') :
    (a :: l).foldlM procLine ps = l.foldlM procLine ps' := by
  rw [List.foldlM_cons, h, opt_some_bind]

theorem conv_eval (text ln lm lp lv lct lmm : List Char) (m : Nat)
    (rows : List (List Char))
    (h0 : linesOf text = [ln, lm, lp, lv] ++ rows ++ [lct, lmm])
    (hm : pyIntOf lm = some (m : Int)) (hm1 : 1 ≤ m) (hrlen : rows.length = m) :
    convert_txt_to_dzn text = some
      ("n = ".toList ++ ln ++ ";\x0am = ".toList ++ pyIntRepr (m : Int) ++
        ";\x0a\x0ap = [".toList ++ replaceComma lp ++
        "];\x0a\x0av = [".toList ++ replaceComma lv ++
        "];\x0a\x0as = [| ".toList ++ List.intercalate sepS rows ++
        " |];\x0a\x0act = ".toList ++ lct ++
        ";\x0a\x0amaxMovs = ".toList ++ lmm ++ ";".toList) := by
  rw [convert_txt_to_dzn]
  rw [h0]
  rw [if_neg (by
    simp only [List.length_append, List.length_cons, List.length_nil]
    omega)]
  rw [show (([ln, lm, lp, lv] ++ rows ++ [lct, lmm]).get? 0) = some ln from rfl,
    opt_some_bind,
    show (([ln, lm, lp, lv] ++ rows ++ [lct, lmm]).get? 1) = some lm from rfl,
    opt_some_bind, hm, opt_some_bind,
    show (([ln, lm, lp, lv] ++ rows ++ [lct, lmm]).get? 2) = some lp from rfl,
    opt_some_bind,
    show (([ln, lm, lp, lv] ++ rows ++ [lct, lmm]).get? 3) = some lv from rfl,
    opt_some_bind, pyRangeInt_natCast m hm1]
  have hmap : ((List.range m).map (fun i : Nat => (i : Int))).mapM
      (fun i => pyGetI ([ln, lm, lp, lv] ++ rows ++ [lct, lmm]) (4 + i)) =
      some rows := by
    have h5 := range_mapM_get rows [ln, lm, lp, lv] [lct, lmm]
    rw [hrlen] at h5
    rw [optMapM_map] at h5
    rw [optMapM_map]
    refine Eq.trans (optMapM_congr ?_) h5
    intro a ha
    show pyGetI ([ln, lm, lp, lv] ++ rows ++ [lct, lmm]) (4 + (a : Int)) =
      pyGetI ([ln, lm, lp, lv] ++ (rows ++ [lct, lmm]))
        ((([ln, lm, lp, lv] : List (List Char)).length : Int) + (a : Int))
    rw [← List.append_assoc]
    congr 1
  rw [hmap, opt_some_bind]
  have hget4 : pyGetI ([ln, lm, lp, lv] ++ rows ++ [lct, lmm]) (4 + (m : Int)) =
      some lct := by
    rw [pyGetI, if_pos (by omega)]
    have h6 : (4 + (m : Int)).toNat = ([ln, lm, lp, lv] ++ rows).length + 0 := by
      simp only [List.length_append, List.length_cons, List.length_nil, hrlen]
      omega
    rw [h6, get?_append_right_len]
    rfl
  have hget5 : pyGetI ([ln, lm, lp, lv] ++ rows ++ [lct, lmm]) (5 + (m : Int)) =
      some lmm := by
    rw [pyGetI, if_pos (by omega)]
    have h6 : (5 + (m : Int)).toNat = ([ln, lm, lp, lv] ++ rows).length + 1 := by
      simp only [List.length_append, List.length_cons, List.length_nil, hrlen]
      omega
    rw [h6, get?_append_right_len]
    rfl
  rw [hget4, opt_some_bind, hget5, opt_some_bind]
  rfl

theorem dzn_parse_eval
    (ln lct lmm : List Char) (m : Nat)
    (p0 : List Char) (prest : List (List Char))
    (v0 : List Char) (vrest : List (List Char))
    (s0 : List (List Char)) (srest : List (List (List Char)))
    (nV : Int) (pV : List Int) (vV : List Rat) (sV : List (List Int)) (cV tV : Rat)
    (hlnS : pyStrip ln = ln) (hlnNe : ln ≠ [])
    (hlctS : pyStrip lct = lct) (hlctNe : lct ≠ [])
    (hlmmS : pyStrip lmm = lmm) (hlmmNe : lmm ≠ [])
    (hrowS : ∀ r ∈ s0 :: srest, pyStrip (List.intercalate [','] r) =
      List.intercalate [','] r ∧ List.intercalate [','] r ≠ [])
    (hnTok : okIntTok ln) (hnVal : pyIntOf ln = some nV)
    (hpTok : ∀ t ∈ p0 :: prest, okIntTok t)
    (hpVal : (p0 :: prest).mapM pyIntOf = some pV)
    (hvTok : ∀ t ∈ v0 :: vrest, okFloatTok t)
    (hvVal : (v0 :: vrest).mapM pyFloatOf = some vV)
    (hsTok : ∀ r ∈ s0 :: srest, ∀ t ∈ r, okIntTok t)
    (hsVal : (s0 :: srest).mapM (fun r => r.mapM pyIntOf) = some sV)
    (hctTok : okFloatTok lct) (hctVal : pyFloatOf lct = some cV)
    (hmmTok : okFloatTok lmm) (hmmVal : pyFloatOf lmm = some tV) :
    parse_dzn_input
      ("n = ".toList ++ ln ++ ";\x0am = ".toList ++ natDigitsRepr m ++
       ";\x0a\x0ap = [".toList ++ List.intercalate [','] (p0 :: prest.map (fun t => ' ' :: t)) ++
       "];\x0a\x0av = [".toList ++ List.intercalate [','] (v0 :: vrest.map (fun t => ' ' :: t)) ++
       "];\x0a\x0as = [| ".toList ++ List.intercalate sepS (List.intercalate [','] s0 :: srest.map (List.intercalate [','])) ++
       " |];\x0a\x0act = ".toList ++ lct ++
       ";\x0a\x0amaxMovs = ".toList ++ lmm ++ ";".toList) =
      some ⟨some nV, some (m : Int), some pV, some vV, some sV, some cV, some tV⟩ := by
  have hpchars := rc_chars_int hpTok
  have hvchars := rc_chars_float hvTok
  have hrcPne : List.intercalate [','] (p0 :: prest.map (fun t => ' ' :: t)) ≠ [] :=
    interc_ne_nil [','] _ (okIntTok_ne (hpTok p0 (List.mem_cons_self _ _)))
  have hrcVne : List.intercalate [','] (v0 :: vrest.map (fun t => ' ' :: t)) ≠ [] :=
    interc_ne_nil [','] _ (okFloatTok_ne (hvTok v0 (List.mem_cons_self _ _)))
  have hst1 : pyStrip ("n = ".toList ++ ln) = "n = ".toList ++ ln := by
    apply pyStrip_eq_self
    · intro x hx
      rw [show ("n = ".toList ++ ln).head? = some 'n' from rfl, Option.some_inj] at hx
      subst hx
      decide
    · intro x hx
      rw [List.getLast?_append_of_ne_nil _ hlnNe] at hx
      exact stripped_getLast hlnS x hx
  have hst2 : pyStrip ("\x0am = ".toList ++ natDigitsRepr m) = "m = ".toList ++ natDigitsRepr m := by
    show pyStrip ('\x0a' :: ("m = ".toList ++ natDigitsRepr m)) = "m = ".toList ++ natDigitsRepr m
    rw [pyStrip_cons_ws (by decide)]
    apply pyStrip_eq_self
    · intro x hx
      rw [show ("m = ".toList ++ natDigitsRepr m).head? = some 'm' from rfl, Option.some_inj] at hx
      subst hx
      decide
    · intro x hx
      rw [List.getLast?_append_of_ne_nil _ (natDigitsRepr_ne m)] at hx
      exact getLast_digits_not_ws (natDigitsRepr_digits m) x hx
  have hst3 : pyStrip ("\x0a\x0ap = [".toList ++ List.intercalate [','] (p0 :: prest.map (fun t => ' ' :: t)) ++ "]".toList) = "p = [".toList ++ List.intercalate [','] (p0 :: prest.map (fun t => ' ' :: t)) ++ "]".toList := by
    show pyStrip ('\x0a' :: '\x0a' :: ("p = [".toList ++ List.intercalate [','] (p0 :: prest.map (fun t => ' ' :: t)) ++ "]".toList)) = "p = [".toList ++ List.intercalate [','] (p0 :: prest.map (fun t => ' ' :: t)) ++ "]".toList
    rw [pyStrip_cons_ws (by decide), pyStrip_cons_ws (by decide)]
    apply pyStrip_eq_self
    · intro x hx
      rw [show ("p = [".toList ++ List.intercalate [','] (p0 :: prest.map (fun t => ' ' :: t)) ++ "]".toList).head? = some 'p' from rfl, Option.some_inj] at hx
      subst hx
      decide
    · intro x hx
      rw [List.getLast?_append_of_ne_nil _
          (show ("]".toList : List Char) ≠ [] from List.cons_ne_nil _ _),
        show ("]".toList : List Char).getLast? = some ']' from rfl,
        Option.some_inj] at hx
      subst hx
      decide
  have hst4 : pyStrip ("\x0a\x0av = [".toList ++ List.intercalate [','] (v0 :: vrest.map (fun t => ' ' :: t)) ++ "]".toList) = "v = [".toList ++ List.intercalate [','] (v0 :: vrest.map (fun t => ' ' :: t)) ++ "]".toList := by
    show pyStrip ('\x0a' :: '\x0a' :: ("v = [".toList ++ List.intercalate [','] (v0 :: vrest.map (fun t => ' ' :: t)) ++ "]".toList)) = "v = [".toList ++ List.intercalate [','] (v0 :: vrest.map (fun t => ' ' :: t)) ++ "]".toList
    rw [pyStrip_cons_ws (by decide), pyStrip_cons_ws (by decide)]
    apply pyStrip_eq_self
    · intro x hx
      rw [show ("v = [".toList ++ List.intercalate [','] (v0 :: vrest.map (fun t => ' ' :: t)) ++ "]".toList).head? = some 'v' from rfl, Option.some_inj] at hx
      subst hx
      decide
    · intro x hx
      rw [List.getLast?_append_of_ne_nil _
          (show ("]".toList : List Char) ≠ [] from List.cons_ne_nil _ _),
        show ("]".toList : List Char).getLast? = some ']' from rfl,
        Option.some_inj] at hx
      subst hx
      decide
  have hst5 : pyStrip ("\x0a\x0as = [| ".toList ++ List.intercalate sepS (List.intercalate [','] s0 :: srest.map (List.intercalate [','])) ++ " |]".toList) = "s = [| ".toList ++ List.intercalate sepS (List.intercalate [','] s0 :: srest.map (List.intercalate [','])) ++ " |]".toList := by
    show pyStrip ('\x0a' :: '\x0a' :: ("s = [| ".toList ++ List.intercalate sepS (List.intercalate [','] s0 :: srest.map (List.intercalate [','])) ++ " |]".toList)) = "s = [| ".toList ++ List.intercalate sepS (List.intercalate [','] s0 :: srest.map (List.intercalate [','])) ++ " |]".toList
    rw [pyStrip_cons_ws (by decide), pyStrip_cons_ws (by decide)]
    apply pyStrip_eq_self
    · intro x hx
      rw [show ("s = [| ".toList ++ List.intercalate sepS (List.intercalate [','] s0 :: srest.map (List.intercalate [','])) ++ " |]".toList).head? = some 's' from rfl, Option.some_inj] at hx
      subst hx
      decide
    · intro x hx
      rw [List.getLast?_append_of_ne_nil _
          (show (" |]".toList : List Char) ≠ [] from List.cons_ne_nil _ _),
        show (" |]".toList : List Char).getLast? = some ']' from rfl,
        Option.some_inj] at hx
      subst hx
      decide
  have hst6 : pyStrip ("\x0a\x0act = ".toList ++ lct) = "ct = ".toList ++ lct := by
    show pyStrip ('\x0a' :: '\x0a' :: ("ct = ".toList ++ lct)) = "ct = ".toList ++ lct
    rw [pyStrip_cons_ws (by decide), pyStrip_cons_ws (by decide)]
    apply pyStrip_eq_self
    · intro x hx
      rw [show ("ct = ".toList ++ lct).head? = some 'c' from rfl, Option.some_inj] at hx
      subst hx
      decide
    · intro x hx
      rw [List.getLast?_append_of_ne_nil _ hlctNe] at hx
      exact stripped_getLast hlctS x hx
  have hst7 : pyStrip ("\x0a\x0amaxMovs = ".toList ++ lmm) = "maxMovs = ".toList ++ lmm := by
    show pyStrip ('\x0a' :: '\x0a' :: ("maxMovs = ".toList ++ lmm)) = "maxMovs = ".toList ++ lmm
    rw [pyStrip_cons_ws (by decide), pyStrip_cons_ws (by decide)]
    apply pyStrip_eq_self
    · intro x hx
      rw [show ("maxMovs = ".toList ++ lmm).head? = some 'm' from rfl, Option.some_inj] at hx
      subst hx
      decide
    · intro x hx
      rw [List.getLast?_append_of_ne_nil _ hlmmNe] at hx
      exact stripped_getLast hlmmS x hx
  have hf1 : ∀ x ∈ ("n = ".toList ++ ln), ¬((x == ';') = true) := by
    intro x hx
    simp only [beq_iff_eq]
    intro he
    subst he
    rcases List.mem_append.1 hx with h | h
    · exact absurd h (by decide)
    · exact (okIntChar_excl (hnTok.2 ';' h)).1 rfl
  have hf2 : ∀ x ∈ ("\x0am = ".toList ++ natDigitsRepr m), ¬((x == ';') = true) := by
    intro x hx
    simp only [beq_iff_eq]
    intro he
    subst he
    rcases List.mem_append.1 hx with h | h
    · exact absurd h (by decide)
    · exact absurd (natDigitsRepr_digits m ';' h) (by decide)
  have hf3 : ∀ x ∈ ("\x0a\x0ap = [".toList ++ List.intercalate [','] (p0 :: prest.map (fun t => ' ' :: t)) ++ "]".toList), ¬((x == ';') = true) := by
    intro x hx
    simp only [beq_iff_eq]
    intro he
    subst he
    rcases List.mem_append.1 hx with h | h
    · rcases List.mem_append.1 h with h | h
      · exact absurd h (by decide)
      · exact (chars3_int (hpchars ';' h)).1 rfl
    · exact absurd h (by decide)
  have hf4 : ∀ x ∈ ("\x0a\x0av = [".toList ++ List.intercalate [','] (v0 :: vrest.map (fun t => ' ' :: t)) ++ "]".toList), ¬((x == ';') = true) := by
    intro x hx
    simp only [beq_iff_eq]
    intro he
    subst he
    rcases List.mem_append.1 hx with h | h
    · rcases List.mem_append.1 h with h | h
      · exact absurd h (by decide)
      · exact (chars3_float (hvchars ';' h)).1 rfl
    · exact absurd h (by decide)
  have hf5 : ∀ x ∈ ("\x0a\x0as = [| ".toList ++ List.intercalate sepS (List.intercalate [','] s0 :: srest.map (List.intercalate [','])) ++ " |]".toList), ¬((x == ';') = true) := by
    intro x hx
    simp only [beq_iff_eq]
    intro he
    subst he
    rcases List.mem_append.1 hx with h | h
    · rcases List.mem_append.1 h with h | h
      · exact absurd h (by decide)
      · rcases mem_interc h with h2 | ⟨t, ht, h2⟩
        · exact absurd h2 (by decide)
        · rcases List.mem_cons.1 ht with rfl | ht2
          · exact semi_ne_of_patch (hsTok s0 (List.mem_cons_self _ _)) ';' h2 rfl
          · obtain ⟨r, hr, rfl⟩ := List.mem_map.1 ht2
            exact semi_ne_of_patch (hsTok r (List.mem_cons_of_mem _ hr)) ';' h2 rfl
    · exact absurd h (by decide)
  have hf6 : ∀ x ∈ ("\x0a\x0act = ".toList ++ lct), ¬((x == ';') = true) := by
    intro x hx
    simp only [beq_iff_eq]
    intro he
    subst he
    rcases List.mem_append.1 hx with h | h
    · exact absurd h (by decide)
    · exact (okFloatChar_excl (hctTok.2 ';' h)).1 rfl
  have hf7 : ∀ x ∈ ("\x0a\x0amaxMovs = ".toList ++ lmm), ¬((x == ';') = true) := by
    intro x hx
    simp only [beq_iff_eq]
    intro he
    subst he
    rcases List.mem_append.1 hx with h | h
    · exact absurd h (by decide)
    · exact (okFloatChar_excl (hmmTok.2 ';' h)).1 rfl
  have hsplitD : List.splitOn ';'
      ("n = ".toList ++ ln ++ ";\x0am = ".toList ++ natDigitsRepr m ++
       ";\x0a\x0ap = [".toList ++ List.intercalate [','] (p0 :: prest.map (fun t => ' ' :: t)) ++
       "];\x0a\x0av = [".toList ++ List.intercalate [','] (v0 :: vrest.map (fun t => ' ' :: t)) ++
       "];\x0a\x0as = [| ".toList ++ List.intercalate sepS (List.intercalate [','] s0 :: srest.map (List.intercalate [','])) ++
       " |];\x0a\x0act = ".toList ++ lct ++
       ";\x0a\x0amaxMovs = ".toList ++ lmm ++ ";".toList) =
      ["n = ".toList ++ ln, "\x0am = ".toList ++ natDigitsRepr m, "\x0a\x0ap = [".toList ++ List.intercalate [','] (p0 :: prest.map (fun t => ' ' :: t)) ++ "]".toList, "\x0a\x0av = [".toList ++ List.intercalate [','] (v0 :: vrest.map (fun t => ' ' :: t)) ++ "]".toList, "\x0a\x0as = [| ".toList ++ List.intercalate sepS (List.intercalate [','] s0 :: srest.map (List.intercalate [','])) ++ " |]".toList, "\x0a\x0act = ".toList ++ lct, "\x0a\x0amaxMovs = ".toList ++ lmm,
        ([] : List Char)] := by
    have hD : ("n = ".toList ++ ln ++ ";\x0am = ".toList ++ natDigitsRepr m ++
       ";\x0a\x0ap = [".toList ++ List.intercalate [','] (p0 :: prest.map (fun t => ' ' :: t)) ++
       "];\x0a\x0av = [".toList ++ List.intercalate [','] (v0 :: vrest.map (fun t => ' ' :: t)) ++
       "];\x0a\x0as = [| ".toList ++ List.intercalate sepS (List.intercalate [','] s0 :: srest.map (List.intercalate [','])) ++
       " |];\x0a\x0act = ".toList ++ lct ++
       ";\x0a\x0amaxMovs = ".toList ++ lmm ++ ";".toList) =
        ("n = ".toList ++ ln) ++ ';' :: (("\x0am = ".toList ++ natDigitsRepr m) ++ ';' :: (("\x0a\x0ap = [".toList ++ List.intercalate [','] (p0 :: prest.map (fun t => ' ' :: t)) ++ "]".toList) ++ ';' :: (("\x0a\x0av = [".toList ++ List.intercalate [','] (v0 :: vrest.map (fun t => ' ' :: t)) ++ "]".toList) ++
          ';' :: (("\x0a\x0as = [| ".toList ++ List.intercalate sepS (List.intercalate [','] s0 :: srest.map (List.intercalate [','])) ++ " |]".toList) ++ ';' :: (("\x0a\x0act = ".toList ++ lct) ++ ';' :: (("\x0a\x0amaxMovs = ".toList ++ lmm) ++
            ';' :: ([] : List Char))))))) := by
      rw [show (";\x0am = ".toList : List Char) = [';'] ++ "\x0am = ".toList from rfl,
        show (";\x0a\x0ap = [".toList : List Char) =
          [';'] ++ "\x0a\x0ap = [".toList from rfl,
        show ("];\x0a\x0av = [".toList : List Char) =
          "]".toList ++ ([';'] ++ "\x0a\x0av = [".toList) from rfl,
        show ("];\x0a\x0as = [| ".toList : List Char) =
          "]".toList ++ ([';'] ++ "\x0a\x0as = [| ".toList) from rfl,
        show (" |];\x0a\x0act = ".toList : List Char) =
          " |]".toList ++ ([';'] ++ "\x0a\x0act = ".toList) from rfl,
        show (";\x0a\x0amaxMovs = ".toList : List Char) =
          [';'] ++ "\x0a\x0amaxMovs = ".toList from rfl,
        show (";".toList : List Char) = [';'] from rfl]
      simp [List.append_assoc]
    rw [hD, List.splitOn,
      List.splitOnP_first _ _ hf1 ';' (by simp) _,
      List.splitOnP_first _ _ hf2 ';' (by simp) _,
      List.splitOnP_first _ _ hf3 ';' (by simp) _,
      List.splitOnP_first _ _ hf4 ';' (by simp) _,
      List.splitOnP_first _ _ hf5 ';' (by simp) _,
      List.splitOnP_first _ _ hf6 ';' (by simp) _,
      List.splitOnP_first _ _ hf7 ';' (by simp) _,
      List.splitOnP_nil]
  have hmS : pyStrip (natDigitsRepr m) = natDigitsRepr m :=
    pyStrip_digits (natDigitsRepr_digits m)
  have hmV : pyIntOf (natDigitsRepr m) = some (m : Int) := by
    rw [← pyIntRepr_natCast]
    exact pyIntOf_pyIntRepr m
  have hsplitP : List.splitOn ',' (List.intercalate [','] (p0 :: prest.map (fun t => ' ' :: t))) = p0 :: prest.map (fun t => ' ' :: t) := by
    apply List.splitOn_intercalate
    · intro l hl
      rcases List.mem_cons.1 hl with rfl | hl2
      · exact okIntTok_no_comma hpTok _ (List.mem_cons_self _ _)
      · obtain ⟨u, hu, rfl⟩ := List.mem_map.1 hl2
        intro hc
        rcases List.mem_cons.1 hc with he | hc2
        · exact absurd he (by decide)
        · exact okIntTok_no_comma hpTok u (List.mem_cons_of_mem _ hu) hc2
    · exact List.cons_ne_nil _ _
  have hmapP : (List.splitOn ',' (List.intercalate [','] (p0 :: prest.map (fun t => ' ' :: t)))).mapM
      (fun x => pyIntOf (pyStrip x)) = some pV := by
    rw [hsplitP, splitRC_mapM_int, hpVal]
  have hsplitV : List.splitOn ',' (List.intercalate [','] (v0 :: vrest.map (fun t => ' ' :: t))) = v0 :: vrest.map (fun t => ' ' :: t) := by
    apply List.splitOn_intercalate
    · intro l hl
      rcases List.mem_cons.1 hl with rfl | hl2
      · exact okFloatTok_no_comma hvTok _ (List.mem_cons_self _ _)
      · obtain ⟨u, hu, rfl⟩ := List.mem_map.1 hl2
        intro hc
        rcases List.mem_cons.1 hc with he | hc2
        · exact absurd he (by decide)
        · exact okFloatTok_no_comma hvTok u (List.mem_cons_of_mem _ hu) hc2
    · exact List.cons_ne_nil _ _
  have hmapV : (List.splitOn ',' (List.intercalate [','] (v0 :: vrest.map (fun t => ' ' :: t)))).mapM
      (fun x => pyFloatOf (pyStrip x)) = some vV := by
    rw [hsplitV, splitRC_mapM_float, hvVal]
  have hhP : ∀ x, (List.intercalate [','] (p0 :: prest.map (fun t => ' ' :: t))).head? = some x → (x = '[' || x = ']') = false :=
    fun x hx => (chars3_int (hpchars x (List.mem_of_mem_head? hx))).2
  have hlP : ∀ x, (List.intercalate [','] (p0 :: prest.map (fun t => ' ' :: t))).getLast? = some x → (x = '[' || x = ']') = false :=
    fun x hx => (chars3_int (hpchars x (mem_of_getLast? hx))).2
  have hhV : ∀ x, (List.intercalate [','] (v0 :: vrest.map (fun t => ' ' :: t))).head? = some x → (x = '[' || x = ']') = false :=
    fun x hx => (chars3_float (hvchars x (List.mem_of_mem_head? hx))).2
  have hlV : ∀ x, (List.intercalate [','] (v0 :: vrest.map (fun t => ' ' :: t))).getLast? = some x → (x = '[' || x = ']') = false :=
    fun x hx => (chars3_float (hvchars x (mem_of_getLast? hx))).2
  have hpc0 : pyStrip ([' '] ++ (List.intercalate [','] s0 ++ [' '])) = List.intercalate [','] s0 :=
    pyStrip_row_wrap ws1 (hrowS s0 (List.mem_cons_self _ _)).1
      (hrowS s0 (List.mem_cons_self _ _)).2
  have hpfree : ∀ l ∈ ([' '] ++ (List.intercalate [','] s0 ++ [' '])) ::
      (srest.map (List.intercalate [','])).map (fun t => ('\x0a' :: "       ".toList) ++ (t ++ [' '])), '|' ∉ l := by
    intro l hl
    rcases List.mem_cons.1 hl with rfl | hl2
    · intro hc
      rcases List.mem_append.1 hc with h | h
      · rw [List.mem_singleton] at h
        exact absurd h (by decide)
      · rcases List.mem_append.1 h with h | h
        · exact pipe_notin_row (hsTok s0 (List.mem_cons_self _ _)) h
        · rw [List.mem_singleton] at h
          exact absurd h (by decide)
    · obtain ⟨r, hr, rfl⟩ := List.mem_map.1 hl2
      obtain ⟨u, hu, rfl⟩ := List.mem_map.1 hr
      intro hc
      rcases List.mem_append.1 hc with h | h
      · exact absurd h (by decide)
      · rcases List.mem_append.1 h with h | h
        · exact pipe_notin_row (hsTok u (List.mem_cons_of_mem _ hu)) h
        · rw [List.mem_singleton] at h
          exact absurd h (by decide)
  have hsplitS : ((List.splitOn '|' (' ' :: ((List.intercalate sepS (List.intercalate [','] s0 :: srest.map (List.intercalate [',']))) ++ [' ']))).map pyStrip).filter
      (fun f => f ≠ []) = List.intercalate [','] s0 :: srest.map (List.intercalate [',']) := by
    rw [mc_pieces,
      List.splitOn_intercalate _ '|' hpfree (List.cons_ne_nil _ _),
      List.map_cons, List.map_map, hpc0,
      List.map_congr_left (by
        intro a ha
        obtain ⟨r, hr, rfl⟩ := List.mem_map.1 ha
        show pyStrip (('\x0a' :: "       ".toList) ++ (List.intercalate [','] r ++ [' '])) =
          id (List.intercalate [','] r)
        exact pyStrip_row_wrap nl7_ws (hrowS r (List.mem_cons_of_mem _ hr)).1
          (hrowS r (List.mem_cons_of_mem _ hr)).2),
      List.map_id, List.filter_eq_self.2 (by
        intro a ha
        rcases List.mem_cons.1 ha with rfl | ha2
        · simpa using (hrowS s0 (List.mem_cons_self _ _)).2
        · obtain ⟨r, hr, rfl⟩ := List.mem_map.1 ha2
          simpa using (hrowS r (List.mem_cons_of_mem _ hr)).2)]
  have hmapS : (List.intercalate [','] s0 :: srest.map (List.intercalate [','])).mapM (fun fila =>
      (((List.splitOn ',' fila).map pyStrip).filter (fun x => x ≠ [])).mapM pyIntOf) =
      some sV := by
    have h1 : (List.intercalate [','] s0 :: srest.map (List.intercalate [',']) : List (List Char)) =
        (s0 :: srest).map (List.intercalate [',']) := by
      rw [List.map_cons]
    rw [h1, optMapM_map]
    refine Eq.trans (optMapM_congr ?_) hsVal
    intro r hr
    have hrne := (hrowS r hr).2
    have hrtok := hsTok r hr
    have hrne2 : r ≠ [] := by
      intro he
      rw [he] at hrne
      exact hrne rfl
    show (((List.splitOn ',' (List.intercalate [','] r)).map pyStrip).filter
      (fun x => x ≠ [])).mapM pyIntOf = r.mapM pyIntOf
    rw [List.splitOn_intercalate _ ',' (okIntTok_no_comma hrtok) hrne2]
    have h3 : (r.map pyStrip).filter (fun x => x ≠ []) = r.map pyStrip := by
      rw [List.filter_eq_self]
      intro a ha
      obtain ⟨t, ht, rfl⟩ := List.mem_map.1 ha
      simpa using okIntTok_strip_ne (hrtok t ht)
    rw [h3, optMapM_map]
    exact optMapM_congr (fun t ht => by rw [pyIntOf_strip])
  rw [parse_dzn_input, hsplitD]
  simp only [List.map_cons, List.map_nil]
  rw [hst1, hst2, hst3, hst4, hst5, hst6, hst7,
    show pyStrip ([] : List Char) = [] from rfl]
  rw [
    List.filter_cons, if_pos (decide_eq_true
      (show ("n = ".toList ++ ln : List Char) ≠ [] from List.cons_ne_nil _ _)),
    List.filter_cons, if_pos (decide_eq_true
      (show ("m = ".toList ++ natDigitsRepr m : List Char) ≠ [] from List.cons_ne_nil _ _)),
    List.filter_cons, if_pos (decide_eq_true
      (show ("p = [".toList ++ List.intercalate [','] (p0 :: prest.map (fun t => ' ' :: t)) ++ "]".toList : List Char) ≠ [] from List.cons_ne_nil _ _)),
    List.filter_cons, if_pos (decide_eq_true
      (show ("v = [".toList ++ List.intercalate [','] (v0 :: vrest.map (fun t => ' ' :: t)) ++ "]".toList : List Char) ≠ [] from List.cons_ne_nil _ _)),
    List.filter_cons, if_pos (decide_eq_true
      (show ("s = [| ".toList ++ List.intercalate sepS (List.intercalate [','] s0 :: srest.map (List.intercalate [','])) ++ " |]".toList : List Char) ≠ [] from List.cons_ne_nil _ _)),
    List.filter_cons, if_pos (decide_eq_true
      (show ("ct = ".toList ++ lct : List Char) ≠ [] from List.cons_ne_nil _ _)),
    List.filter_cons, if_pos (decide_eq_true
      (show ("maxMovs = ".toList ++ lmm : List Char) ≠ [] from List.cons_ne_nil _ _)),
    List.filter_cons, if_neg (by decide), List.filter_nil]
  rw [foldlM_procLine_step _ _ _ _ (procLine_n _ hlnS hnVal),
    foldlM_procLine_step _ _ _ _ (procLine_m _ hmS hmV),
    foldlM_procLine_step _ _ _ _ (procLine_p _ hrcPne hhP hlP hmapP),
    foldlM_procLine_step _ _ _ _ (procLine_v _ hrcVne hhV hlV hmapV),
    foldlM_procLine_step _ _ _ _ (procLine_s _ hsplitS hmapS),
    foldlM_procLine_step _ _ _ _ (procLine_ct _ hlctS hctVal),
    foldlM_procLine_step _ _ _ _ (procLine_maxMovs _ hlmmS hmmVal),
    List.foldlM_nil]
  rfl

theorem takeWhile_all {p : Char → Bool} :
    ∀ {l : List Char}, (∀ c ∈ l, p c = true) → l.takeWhile p = l := by
  intro l h
  induction l with
  | nil => rfl
  | cons a rest ih =>
      rw [List.takeWhile_cons_of_pos (h a (List.mem_cons_self a rest)),
        ih (fun c hc => h c (List.mem_cons_of_mem a hc))]

theorem pyFloatOf_intlike {l ds : List Char} (h : pyStrip l = ds) (h2 : ds ≠ [])
    (h3 : ∀ c ∈ ds, c.isDigit = true) :
    pyFloatOf l = some ((digitsVal ds : Nat) : Rat) := by
  rw [pyFloatOf, h]
  dsimp only
  match ds, h2, h3 with
  | c :: rest, _, h3 =>
    have hc : c.isDigit = true := h3 c (List.mem_cons_self c rest)
    have hcp : c ≠ '+' := by rintro rfl; exact absurd hc (by decide)
    have hcm : c ≠ '-' := by rintro rfl; exact absurd hc (by decide)
    split
    · rename_i ds1 heq
      injection heq with heq1 heq2
      exact absurd heq1 hcp
    · rename_i ds1 heq
      injection heq with heq1 heq2
      exact absurd heq1 hcm
    · rw [takeWhile_all h3, List.drop_length]
      rw [if_neg (by simp)]

/-- **C1.** Converter/parser round trip.  For a well-formed input text — its
non-blank stripped lines laid out as the `n` line, the `m` line, the
comma-separated `p` and `v` lines, `m` comma-separated matrix-row lines and
the `ct` and `maxMovs` lines, where integer tokens consist of digits, signs
and spaces and parse with `int`, and float tokens (also allowing a dot)
parse with `float` — the conversion succeeds, and re-parsing the produced
DZN content with `parse_dzn_input` yields back exactly the `n`, `m`, `p`,
`v`, `s`, `ct` and `maxMovs` values supplied in the input. -/
theorem claim_C1 (text ln lm lp lv lct lmm : List Char) (m : Nat)
    (ptoks vtoks : List (List Char)) (stoks : List (List (List Char)))
    (nV : Int) (pV : List Int) (vV : List Rat) (sV : List (List Int)) (cV tV : Rat)
    (h0 : linesOf text =
      [ln, lm, lp, lv] ++ stoks.map (List.intercalate [',']) ++ [lct, lmm])
    (hm : pyIntOf lm = some (m : Int)) (hm1 : 1 ≤ m) (hms : stoks.length = m)
    (hn : okIntTok ln ∧ pyIntOf ln = some nV)
    (hp : ptoks ≠ [] ∧ (∀ t ∈ ptoks, okIntTok t) ∧
      lp = List.intercalate [','] ptoks ∧ ptoks.mapM pyIntOf = some pV)
    (hv : vtoks ≠ [] ∧ (∀ t ∈ vtoks, okFloatTok t) ∧
      lv = List.intercalate [','] vtoks ∧ vtoks.mapM pyFloatOf = some vV)
    (hs : (∀ r ∈ stoks, ∀ t ∈ r, okIntTok t) ∧
      stoks.mapM (fun r => r.mapM pyIntOf) = some sV)
    (hct : okFloatTok lct ∧ pyFloatOf lct = some cV)
    (hmx : okFloatTok lmm ∧ pyFloatOf lmm = some tV) :
    ∃ dzn, convert_txt_to_dzn text = some dzn ∧
      parse_dzn_input dzn =
        some ⟨some nV, some (m : Int), some pV, some vV, some sV, some cV,
          some tV⟩ := by
  obtain ⟨hnTok, hnVal⟩ := hn
  obtain ⟨hpNe, hpTok, hpEq, hpVal⟩ := hp
  obtain ⟨hvNe, hvTok, hvEq, hvVal⟩ := hv
  obtain ⟨hsTok, hsVal⟩ := hs
  obtain ⟨hctTok, hctVal⟩ := hct
  obtain ⟨hmmTok, hmmVal⟩ := hmx
  obtain ⟨p0, prest, rfl⟩ : ∃ a l, ptoks = a :: l := by
    cases ptoks with
    | nil => exact absurd rfl hpNe
    | cons a l => exact ⟨a, l, rfl⟩
  obtain ⟨v0, vrest, rfl⟩ : ∃ a l, vtoks = a :: l := by
    cases vtoks with
    | nil => exact absurd rfl hvNe
    | cons a l => exact ⟨a, l, rfl⟩
  obtain ⟨s0, srest, rfl⟩ : ∃ a l, stoks = a :: l := by
    cases stoks with
    | nil =>
        rw [List.length_nil] at hms
        omega
    | cons a l => exact ⟨a, l, rfl⟩
  subst hpEq
  subst hvEq
  have hlsAll := linesOf_strip (t := text)
  rw [h0] at hlsAll
  have hconv := conv_eval text ln lm _ _ lct lmm m _ h0 hm hm1
    (by rw [List.length_map]; exact hms)
  refine ⟨_, hconv, ?_⟩
  rw [pyIntRepr_natCast,
    show replaceComma (List.intercalate [','] (p0 :: prest)) =
      List.intercalate [','] (p0 :: prest.map (fun t => ' ' :: t)) from
      replaceComma_interc prest p0 (okIntTok_no_comma hpTok),
    show replaceComma (List.intercalate [','] (v0 :: vrest)) =
      List.intercalate [','] (v0 :: vrest.map (fun t => ' ' :: t)) from
      replaceComma_interc vrest v0 (okFloatTok_no_comma hvTok),
    List.map_cons]
  exact dzn_parse_eval ln lct lmm m p0 prest v0 vrest s0 srest nV pV vV sV cV tV
    (hlsAll ln (by simp)).1 (hlsAll ln (by simp)).2
    (hlsAll lct (by simp)).1 (hlsAll lct (by simp)).2
    (hlsAll lmm (by simp)).1 (hlsAll lmm (by simp)).2
    (fun r hr => hlsAll _ (List.mem_append.2 (Or.inl (List.mem_append.2
      (Or.inr (List.mem_map_of_mem _ hr))))))
    hnTok hnVal hpTok hpVal hvTok hvVal hsTok hsVal hctTok hctVal hmmTok hmmVal

theorem claim_C1_witness :
    ∃ dzn, convert_txt_to_dzn
        "10\x0a3\x0a3,3,4\x0a2,3,4\x0a1,1,1\x0a1,1,1\x0a2,1,1\x0a9\x0a5".toList =
          some dzn ∧
      parse_dzn_input dzn = some ⟨some 10, some 3, some [3, 3, 4],
        some [((2 : Nat) : Rat), ((3 : Nat) : Rat), ((4 : Nat) : Rat)],
        some [[1, 1, 1], [1, 1, 1], [2, 1, 1]], some ((9 : Nat) : Rat),
        some ((5 : Nat) : Rat)⟩ := by
  have e2 : pyFloatOf "2".toList = some ((2 : Nat) : Rat) := by
    rw [pyFloatOf_intlike (show pyStrip "2".toList = "2".toList from by decide)
      (by decide) (by decide), show digitsVal "2".toList = 2 from by decide]
  have e3 : pyFloatOf "3".toList = some ((3 : Nat) : Rat) := by
    rw [pyFloatOf_intlike (show pyStrip "3".toList = "3".toList from by decide)
      (by decide) (by decide), show digitsVal "3".toList = 3 from by decide]
  have e4 : pyFloatOf "4".toList = some ((4 : Nat) : Rat) := by
    rw [pyFloatOf_intlike (show pyStrip "4".toList = "4".toList from by decide)
      (by decide) (by decide), show digitsVal "4".toList = 4 from by decide]
  have e9 : pyFloatOf "9".toList = some ((9 : Nat) : Rat) := by
    rw [pyFloatOf_intlike (show pyStrip "9".toList = "9".toList from by decide)
      (by decide) (by decide), show digitsVal "9".toList = 9 from by decide]
  have e5 : pyFloatOf "5".toList = some ((5 : Nat) : Rat) := by
    rw [pyFloatOf_intlike (show pyStrip "5".toList = "5".toList from by decide)
      (by decide) (by decide), show digitsVal "5".toList = 5 from by decide]
  exact claim_C1
    "10\x0a3\x0a3,3,4\x0a2,3,4\x0a1,1,1\x0a1,1,1\x0a2,1,1\x0a9\x0a5".toList
    "10".toList "3".toList "3,3,4".toList "2,3,4".toList "9".toList "5".toList 3
    ["3".toList, "3".toList, "4".toList] ["2".toList, "3".toList, "4".toList]
    [["1".toList, "1".toList, "1".toList], ["1".toList, "1".toList, "1".toList],
      ["2".toList, "1".toList, "1".toList]]
    10 [3, 3, 4] [((2 : Nat) : Rat), ((3 : Nat) : Rat), ((4 : Nat) : Rat)]
    [[1, 1, 1], [1, 1, 1], [2, 1, 1]] ((9 : Nat) : Rat) ((5 : Nat) : Rat)
    (by decide) (by decide) (by decide) (by decide)
    ⟨by decide, by decide⟩
    ⟨by decide, by decide, by decide, by decide⟩
    ⟨by decide, by decide, by decide, by
      rw [List.mapM_cons, e2, opt_some_bind, List.mapM_cons, e3, opt_some_bind,
        List.mapM_cons, e4, opt_some_bind, List.mapM_nil]
      rfl⟩
    ⟨by decide, by decide⟩
    ⟨by decide, e9⟩
    ⟨by decide, e5⟩

end MinPol
